import Mathlib

/-!
# redoc: route assembly of the ReDoc documentation portal

A shallow embedding of `redoc.go` (package `redoc`): `New` and its options,
`Server.Build`, `Server.buildFontRoutes` and `get`, together with the parts of
the Go standard library the route assembly depends on (`crypto/md5`,
`fmt.Sprintf("%x", ...)`, `path.Clean`, `path.Join`, string slicing, the
request loop of `http.Client.Do` and the registration behaviour of
`http.ServeMux`).

Go strings are modelled by `String`, byte slices by lists of bytes.  Stateful
code passes its state explicitly: the route table of the mux and a trace of the
calls made to the outside world.  A Go function that can return an error or
panic returns a `Result`.
-/

set_option autoImplicit false


/-! ## `crypto/md5` and hexadecimal formatting -/

namespace Redoc

/-- A byte. -/
abbrev Byte := Fin 256

/-- A Go `[]byte`. -/
abbrev Bytes := List Byte

/-- The per-round left-rotation amounts of MD5 (RFC 1321). -/
def md5Shifts : List Nat :=
  [7, 12, 17, 22, 7, 12, 17, 22, 7, 12, 17, 22, 7, 12, 17, 22,
   5, 9, 14, 20, 5, 9, 14, 20, 5, 9, 14, 20, 5, 9, 14, 20,
   4, 11, 16, 23, 4, 11, 16, 23, 4, 11, 16, 23, 4, 11, 16, 23,
   6, 10, 15, 21, 6, 10, 15, 21, 6, 10, 15, 21, 6, 10, 15, 21]

/-- The sine table of MD5: `floor(2^32 * abs(sin(i + 1)))`. -/
def md5Table : List Nat :=
  [0xd76aa478, 0xe8c7b756, 0x242070db, 0xc1bdceee, 0xf57c0faf, 0x4787c62a, 0xa8304613, 0xfd469501,
   0x698098d8, 0x8b44f7af, 0xffff5bb1, 0x895cd7be, 0x6b901122, 0xfd987193, 0xa679438e, 0x49b40821,
   0xf61e2562, 0xc040b340, 0x265e5a51, 0xe9b6c7aa, 0xd62f105d, 0x02441453, 0xd8a1e681, 0xe7d3fbc8,
   0x21e1cde6, 0xc33707d6, 0xf4d50d87, 0x455a14ed, 0xa9e3e905, 0xfcefa3f8, 0x676f02d9, 0x8d2a4c8a,
   0xfffa3942, 0x8771f681, 0x6d9d6122, 0xfde5380c, 0xa4beea44, 0x4bdecfa9, 0xf6bb4b60, 0xbebfbc70,
   0x289b7ec6, 0xeaa127fa, 0xd4ef3085, 0x04881d05, 0xd9d4d039, 0xe6db99e5, 0x1fa27cf8, 0xc4ac5665,
   0xf4292244, 0x432aff97, 0xab9423a7, 0xfc93a039, 0x655b59c3, 0x8f0ccc92, 0xffeff47d, 0x85845dd1,
   0x6fa87e4f, 0xfe2ce6e0, 0xa3014314, 0x4e0811a1, 0xf7537e82, 0xbd3af235, 0x2ad7d2bb, 0xeb86d391]

/-- Truncation to a `uint32`. -/
def w32 (x : Nat) : Nat := x % 4294967296

/-- Left rotation of a `uint32` (`bits.RotateLeft32`). -/
def rotl32 (x c : Nat) : Nat := w32 ((x <<< c) ||| (x >>> (32 - c)))

/-- Bitwise complement of a `uint32`. -/
def not32 (x : Nat) : Nat := x ^^^ 4294967295

/-- The four chaining words of MD5. -/
structure Md5State where
  a : Nat
  b : Nat
  c : Nat
  d : Nat
deriving DecidableEq, Repr

/-- The initial chaining words. -/
def md5Init : Md5State := ⟨0x67452301, 0xefcdab89, 0x98badcfe, 0x10325476⟩

/-- Operation `i` (0 to 63) of the block function on the sixteen message
words `m`. -/
def md5Round (m : List Nat) (st : Md5State) (i : Nat) : Md5State :=
  let f :=
    if i < 16 then (st.b &&& st.c) ||| (not32 st.b &&& st.d)
    else if i < 32 then (st.d &&& st.b) ||| (not32 st.d &&& st.c)
    else if i < 48 then st.b ^^^ st.c ^^^ st.d
    else st.c ^^^ (st.b ||| not32 st.d)
  let g :=
    if i < 16 then i
    else if i < 32 then (5 * i + 1) % 16
    else if i < 48 then (3 * i + 5) % 16
    else (7 * i) % 16
  let t := w32 (f + st.a + md5Table.getD i 0 + m.getD g 0)
  ⟨st.d, w32 (st.b + rotl32 t (md5Shifts.getD i 0)), st.b, st.c⟩

/-- The little-endian `uint32` of four bytes. -/
def leWord (bs : List Nat) : Nat :=
  bs.getD 0 0 + 256 * bs.getD 1 0 + 65536 * bs.getD 2 0 + 16777216 * bs.getD 3 0

/-- The sixteen message words of a 64-byte block. -/
def blockWords (blk : List Nat) : List Nat :=
  (List.range 16).map (fun j => leWord ((blk.drop (4 * j)).take 4))

/-- The block function: 64 operations, then the chaining words are added. -/
def md5Block (st : Md5State) (blk : List Nat) : Md5State :=
  let r := (List.range 64).foldl (md5Round (blockWords blk)) st
  ⟨w32 (st.a + r.a), w32 (st.b + r.b), w32 (st.c + r.c), w32 (st.d + r.d)⟩

/-- The `n` low bytes of `x`, little-endian. -/
def leBytes (n x : Nat) : List Nat :=
  (List.range n).map (fun j => (x >>> (8 * j)) % 256)

/-- The padded message: the byte 0x80, zeros up to 56 modulo 64, and the
length in bits as a little-endian `uint64`. -/
def md5Pad (msg : List Nat) : List Nat :=
  msg ++ [128] ++ List.replicate ((119 - msg.length % 64) % 64) 0
    ++ leBytes 8 ((8 * msg.length) % 18446744073709551616)

/-- The 64-byte blocks of a padded message. -/
def md5Blocks (p : List Nat) : List (List Nat) :=
  (List.range (p.length / 64)).map (fun j => (p.drop (64 * j)).take 64)

/-- The digest of crypto/md5: `md5.Sum(b)`, as the list of its 16 bytes. -/
def md5Sum (b : Bytes) : List Nat :=
  let st := (md5Blocks (md5Pad (b.map Fin.val))).foldl md5Block md5Init
  leBytes 4 st.a ++ leBytes 4 st.b ++ leBytes 4 st.c ++ leBytes 4 st.d

/-- The lowercase hexadecimal digit of a value below 16. -/
def hexDigit (n : Nat) : Char := "0123456789abcdef".toList.getD n '0'

/-- The string `fmt.Sprintf("%x", d)` of a byte array: two lowercase hex digits
per byte. -/
def hexBytes (d : List Nat) : String :=
  String.mk (d.flatMap (fun x => [hexDigit (x / 16 % 16), hexDigit (x % 16)]))

/-- The bytes of an ASCII string. -/
def ascii (s : String) : Bytes := s.toList.map (fun c => Fin.ofNat c.toNat)


/-! ## `path.Clean` and `path.Join` (Go standard library, package `path`) -/

/-- The backtracking of a `..` element in `path.Clean`: `out.w--` followed by
`for out.w > dotdot && out.index(out.w) != '/' { out.w-- }`.  The argument `w`
is the write index before the first decrement; the result is the final one. -/
def cleanBacktrack (buf : List Char) (dotdot : Nat) : Nat → Nat
  | 0 => 0
  | w + 1 => if w > dotdot ∧ buf.getD w '/' ≠ '/' then cleanBacktrack buf dotdot w else w

/-- The slash `path.Clean` writes before a real path element:
`if rooted && out.w != 1 || !rooted && out.w != 0 { out.append('/') }`. -/
def cleanAddSep (rooted : Bool) (out : List Char) : List Char :=
  if (rooted = true ∧ out.length ≠ 1) ∨ (rooted = false ∧ out.length ≠ 0) then out ++ ['/']
  else out

/-- The main loop of `path.Clean`.  `rest` is `path[r:]`, `out` is the content
of the output buffer (its length is `out.w`), `dotdot` is the index where `..`
must stop.  Every iteration consumes at least one byte of `rest`, so the loop
is run with as much fuel as there are bytes. -/
def cleanLoop (rooted : Bool) : Nat → List Char → List Char → Nat → List Char
  | 0, _, out, _ => out
  | fuel + 1, rest, out, dotdot =>
    match rest with
    | [] => out
    | c :: tl =>
      if c = '/' then
        -- empty path element
        cleanLoop rooted fuel tl out dotdot
      else if c = '.' ∧ (tl = [] ∨ tl.head? = some '/') then
        -- . element
        cleanLoop rooted fuel tl out dotdot
      else if c = '.' ∧ tl.head? = some '.' ∧ (tl.tail = [] ∨ tl.tail.head? = some '/') then
        -- .. element: remove to last /
        if out.length > dotdot then
          cleanLoop rooted fuel tl.tail (out.take (cleanBacktrack out dotdot out.length)) dotdot
        else if rooted = false then
          let out1 := if out.length > 0 then out ++ ['/'] else out
          let out2 := out1 ++ ['.', '.']
          cleanLoop rooted fuel tl.tail out2 out2.length
        else
          cleanLoop rooted fuel tl.tail out dotdot
      else
        -- real path element: add slash if needed, copy element
        cleanLoop rooted fuel (rest.dropWhile (fun x => x ≠ '/'))
          (cleanAddSep rooted out ++ rest.takeWhile (fun x => x ≠ '/')) dotdot

/-- Go `path.Clean` on the characters of a path. -/
def cleanChars (path : List Char) : List Char :=
  if path = [] then ['.']
  else
    let rooted := path.head? = some '/'
    let out :=
      if rooted then cleanLoop true path.length path.tail ['/'] 1
      else cleanLoop false path.length path [] 0
    if out.length = 0 then ['.'] else out

/-- Go `path.Clean`. -/
def Clean (path : String) : String := String.mk (cleanChars path.toList)

/-- The buffer `path.Join` builds before cleaning: an element is appended when
the buffer is non-empty or the element is, with a `/` before it when the buffer
is non-empty. -/
def joinBuf : List Char → List String → List Char
  | buf, [] => buf
  | buf, e :: es =>
    if buf.length > 0 ∨ e ≠ "" then
      joinBuf ((if buf.length > 0 then buf ++ ['/'] else buf) ++ e.toList) es
    else joinBuf buf es

/-- Go `path.Join`. -/
def Join (elem : List String) : String :=
  if (elem.map String.length).sum = 0 then ""
  else String.mk (cleanChars (joinBuf [] elem))

/-- Go string slicing `s[:n]`: `none` stands for the run-time panic
"slice bounds out of range". -/
def sliceTo (s : String) (n : Nat) : Option String :=
  if n ≤ s.length then some (String.mk (s.toList.take n)) else none


/-! ## Data model -/

/-- A Go `error` value: a plain error with its message; the `*url.Error` with
operation, URL and cause in which `http.Client.Do` wraps every error it returns;
the error `Do` makes of a `Location` header that does not parse
(`failed to parse Location header %q: %v`). -/
inductive Error where
  | msg (s : String)
  | url (op : String) (url : String) (err : Error)
  | location (loc : String) (err : Error)
deriving DecidableEq, Repr

/-- The run-time panics of the route assembly: a call on a nil mux, the
registration of the empty pattern, the registration of a pattern that is
already registered, a slice out of bounds. -/
inductive Panic where
  | nilPointer
  | invalidPattern
  | conflict (pattern : String)
  | sliceBounds
deriving DecidableEq, Repr

/-- The outcome of a Go call: normal return, a returned non-nil error, or a
run-time panic. -/
inductive Result (α : Type) where
  | ok (a : α)
  | error (e : Error)
  | panic (p : Panic)
deriving DecidableEq, Repr

/-- Whether the call returned a non-nil error. -/
def Result.isError {α : Type} : Result α → Bool
  | .error _ => true
  | _ => false

/-- Whether the call panicked. -/
def Result.isPanic {α : Type} : Result α → Bool
  | .panic _ => true
  | _ => false

/-- A template parameter value (`interface{}` in the source). -/
inductive Value where
  | str (s : String)
  | int (n : Int)
  | bool (b : Bool)
deriving DecidableEq, Repr

/-- A Go `map[string]interface{}`: an association list read by first match. -/
abbrev Params := List (String × Value)

/-- The map read `m[k]` (with its `ok` flag as the option). -/
def mapGet (m : Params) (k : String) : Option Value :=
  (m.find? (fun kv => kv.1 == k)).map Prod.snd

/-- The map write `m[k] = v`. -/
def mapSet : Params → String → Value → Params
  | [], k, v => [(k, v)]
  | (k1, v1) :: m, k, v => if k1 = k then (k, v) :: m else (k1, v1) :: mapSet m k v

/-- What a registered handler does with a request: the `Content-Type` header
it sets (`none` when it sets none) and the bytes it writes. -/
structure Handler where
  contentType : Option String
  body : Bytes
deriving DecidableEq, Repr

/-- The route table of a `http.ServeMux`: patterns with their handlers, in
registration order. -/
structure ServeMux where
  routes : List (String × Handler)
deriving DecidableEq, Repr

/-- The empty mux of `http.NewServeMux()`. -/
def NewServeMux : ServeMux := ⟨[]⟩

/-- The registration `(*http.ServeMux).HandleFunc(pattern, handler)`.  The
error case is a panic: Go panics on a nil mux, on the empty pattern and on a
pattern that is already registered; otherwise the route is added. -/
def HandleFunc (mux : Option ServeMux) (pattern : String) (h : Handler) : Except Panic ServeMux :=
  match mux with
  | none => .error .nilPointer
  | some m =>
    if pattern = "" then .error .invalidPattern
    else if pattern ∈ m.routes.map Prod.fst then .error (.conflict pattern)
    else .ok ⟨m.routes ++ [(pattern, h)]⟩

/-- The routes of a possibly nil mux. -/
def muxRoutes (mux : Option ServeMux) : List (String × Handler) :=
  match mux with
  | none => []
  | some m => m.routes

/-- A call made by the route assembly to one of its collaborators. -/
inductive Event where
  | get (url : String)
  | allFontFaces (family : String)
  | parse (template : Bytes)
  | execute (template : Bytes) (params : Params)
deriving DecidableEq, Repr

/-- A HTTP response as `http.Client.Do` and `get` see it: the status code, the
values of `Header.Get("Location")` and `Header.Get("Content-Type")`, and the
outcome of `ioutil.ReadAll` on the body. -/
structure Response where
  status : Nat
  location : String
  contentType : String
  body : Except Error Bytes

/-- A `http.RoundTripper`: the outcome of `RoundTrip` for a GET request to a
URL, as `send` hands it to `Do`: a response, or the error of `RoundTrip` (which
`send` passes on, but for a TLS record header error on a plain HTTP answer,
which it replaces by `http.ErrSchemeMismatch`).  The outcome may depend on
what happened before: the calls of the build so far, and the URLs already
requested by the current `Do`. -/
abbrev RoundTripper := List Event → List String → String → Except Error Response

/-- A font face descriptor of the webfonts collaborator (`webfonts.FontFace`);
redoc never inspects it. -/
structure FontFace where
  family : String
  src : String
deriving DecidableEq, Repr

/-- A font file route of the webfonts collaborator (`webfonts.Route`). -/
structure Route where
  Path : String
  URL : String
deriving DecidableEq, Repr

/-- One invocation of the visitor by `webfonts.BuildRoutes`: the family name,
its CSS text and the routes of its font files. -/
structure Family where
  name : String
  css : Bytes
  routes : List Route
deriving DecidableEq, Repr

/-- The collaborators of the route assembly. -/
structure Env where
  /-- The transport `http.DefaultTransport` -/
  DefaultTransport : RoundTripper
  /-- The error of `http.NewRequest("GET", url, nil)`, if any -/
  NewRequest : String → Option Error
  /-- The string of a request URL with its password elided
  (`stripPassword(req.URL)`), as `http.Client.Do` puts it in a `*url.Error` -/
  redact : String → String
  /-- The URL of the next request of a redirect, `req.URL.Parse(loc)`: the
  `Location` header resolved against the URL of the request -/
  resolve : String → String → Except Error String
  /-- The font faces of
  `webfonts.AllFontFaces(ctx, family, webfonts.WithTransport(transport))` -/
  AllFontFaces : RoundTripper → List Event → String → Except Error (List FontFace)
  /-- The families `webfonts.BuildRoutes(prefix, fonts, h)` visits, in order -/
  families : String → List FontFace → List Family
  /-- The error of `template.New("index.html").Parse(text)`, if any -/
  Parse : Bytes → Option Error
  /-- The output of `tpl.ExecuteTemplate(index, "index.html", params)` for the
  template parsed from the text -/
  ExecuteTemplate : Bytes → Params → Except Error Bytes
  /-- The embedded `index.html` -/
  DefaultTemplate : Bytes

/-- The mutable state of a build: the mux the server points to and the trace
of calls made so far. -/
structure State where
  mux : Option ServeMux
  trace : List Event
deriving DecidableEq, Repr

/-- Server is a redoc server.  The embedded `*http.ServeMux` may be nil; the
field `pfx` is the field `prefix` of the source. -/
structure Server where
  ServeMux : Option ServeMux
  spec : String
  index : String
  template : Bytes
  family : String
  version : String
  pfx : String
  params : Params

/-- Option is a redoc server option. -/
abbrev ServerOption := Server → Server

/-- WithServeMux is a redoc server option to set the mux used. -/
def WithServeMux (serveMux : Option ServeMux) : ServerOption :=
  fun s => { s with ServeMux := serveMux }

/-- WithTemplate is a redoc server option to set the template. -/
def WithTemplate (template : Bytes) : ServerOption :=
  fun s => { s with template := template }

/-- WithFamily is a redoc server option to set the google webfonts family to
use. -/
def WithFamily (family : String) : ServerOption :=
  fun s => { s with family := family }

/-- WithVersion is a redoc server option to set the redoc script version
retrieved. -/
def WithVersion (version : String) : ServerOption :=
  fun s => { s with version := version }

/-- WithPrefix is a redoc server option to set the asset prefix. -/
def WithPrefix (pfx : String) : ServerOption :=
  fun s => { s with pfx := pfx }

/-- WithParam is a redoc server option to set an additional template param. -/
def WithParam (key : String) (value : Value) : ServerOption :=
  fun s => { s with params := mapSet s.params key value }

/-- WithTitle is a redoc server option to set the redoc page title. -/
def WithTitle (title : String) : ServerOption :=
  WithParam "title" (.str title)

/-- New creates a new redoc server. -/
def New (env : Env) (spec index : String) (opts : List ServerOption) : Server :=
  let s : Server :=
    { ServeMux := none
      spec := spec
      index := index
      template := env.DefaultTemplate
      family := "Montserrat:300,400,700|Roboto:300,400,700"
      version := "next"
      pfx := "/_/"
      params := [("title", .str "ReDoc")] }
  let s := opts.foldl (fun s o => o s) s
  if s.ServeMux = none then { s with ServeMux := some NewServeMux } else s

/-! ## The route assembly -/

/-- The `redirectBehavior` of `net/http` for a GET request without body:
whether the status makes the client follow the `Location` header. -/
def shouldRedirect (status : Nat) : Bool :=
  status = 301 || status = 302 || status = 303 || status = 307 || status = 308

/-- The loop of `(*http.Client).do` for a GET request, with the default
redirect policy.  `reqs` are the URLs already requested, `req` is the URL to
request now, `n` is the number of requests the policy still allows after this
one (`defaultCheckRedirect` stops when ten requests have been made).  An error
of the transport is wrapped in a `*url.Error` with the URL of the request; a
response that is no redirect, or a redirect without `Location`, is returned;
otherwise the `Location` is resolved against the URL of the request and
requested.  A `Location` that does not parse gives a `*url.Error` with the URL
of the request just made (`resp.Request` is that request, or nil); the stop
after ten requests gives one with the `Location` as its URL. -/
def clientDoLoop (env : Env) (transport : RoundTripper) (tr : List Event) :
    Nat → List String → String → Except Error Response
  | n, reqs, req =>
    match transport tr reqs req with
    | .error e => .error (.url "Get" (env.redact req) e)
    | .ok resp =>
      if shouldRedirect resp.status = false then .ok resp
      else if resp.location = "" then .ok resp
      else
        match env.resolve req resp.location with
        | .error e => .error (.url "Get" (env.redact req) (.location resp.location e))
        | .ok u =>
          match n with
          | 0 => .error (.url "Get" resp.location (.msg "stopped after 10 redirects"))
          | m + 1 => clientDoLoop env transport tr m (reqs ++ [req]) u

/-- The call `cl.Do(req)` of `get`, for the client
`&http.Client{Transport: transport}` and a GET request to `urlstr`. -/
def clientDo (env : Env) (transport : RoundTripper) (tr : List Event) (urlstr : String) :
    Except Error Response :=
  clientDoLoop env transport tr 9 [] urlstr

/-- Retrieves a url using the transport (`get`). -/
def get (env : Env) (transport : RoundTripper) (urlstr : String) (tr : List Event) :
    Except Error (String × Bytes) × List Event :=
  let tr1 := tr ++ [Event.get urlstr]
  -- request
  match env.NewRequest urlstr with
  | some e => (.error e, tr1)
  | none =>
    -- execute
    match clientDo env transport tr urlstr with
    | .error e => (.error e, tr1)
    | .ok res =>
      match res.body with
      | .error e => (.error e, tr1)
      | .ok buf => (.ok (res.contentType, buf), tr1)

/-- The loop over the routes of one family in the visitor of
`buildFontRoutes`: retrieve each font file and add its route handler. -/
def fontRoutesLoop (env : Env) (transport : RoundTripper) (s : Server) :
    List Route → State → Result Unit × State
  | [], st => (.ok (), st)
  | route :: rest, st =>
    match get env transport route.URL st.trace with
    | (.error e, tr1) => (.error e, ⟨st.mux, tr1⟩)
    | (.ok (contentType, buf), tr1) =>
      match HandleFunc st.mux (Join [s.pfx, route.Path]) ⟨some contentType, buf⟩ with
      | .error m => (.panic m, ⟨st.mux, tr1⟩)
      | .ok m => fontRoutesLoop env transport s rest ⟨some m, tr1⟩

/-- The visitor `buildFontRoutes` passes to `webfonts.BuildRoutes`.  The
stylesheet buffer it captures is the second component of the state. -/
def fontVisitor (env : Env) (transport : RoundTripper) (s : Server)
    (_family : String) (buf : Bytes) (routes : List Route) (σ : State × Bytes) :
    Result Unit × (State × Bytes) :=
  match fontRoutesLoop env transport s routes σ.1 with
  | (.ok (), st1) => (.ok (), (st1, σ.2 ++ buf))
  | (.error e, st1) => (.error e, (st1, σ.2))
  | (.panic m, st1) => (.panic m, (st1, σ.2))

/-- Modelled from the spec: `webfonts.BuildRoutes(prefix, fonts, h)` of the
font collaborator, whose code is not part of this repository.  The visitor is
invoked once per family, in order, with the CSS text and the routes of the
family; the first error of the visitor stops the iteration and is returned. -/
def BuildRoutes {σ : Type} (h : String → Bytes → List Route → σ → Result Unit × σ) :
    List Family → σ → Result Unit × σ
  | [], st => (.ok (), st)
  | f :: fs, st =>
    match h f.name f.css f.routes st with
    | (.ok (), st1) => BuildRoutes h fs st1
    | (.error e, st1) => (.error e, st1)
    | (.panic m, st1) => (.panic m, st1)

/-- Builds font paths and retrieves the font files
(`Server.buildFontRoutes`). -/
def Server.buildFontRoutes (env : Env) (s : Server) (transport : RoundTripper) (st : State) :
    Result Bytes × State :=
  let tr1 := st.trace ++ [Event.allFontFaces s.family]
  match env.AllFontFaces transport st.trace s.family with
  | .error e => (.error e, ⟨st.mux, tr1⟩)
  | .ok fonts =>
    match BuildRoutes (fontVisitor env transport s) (env.families s.pfx fonts) (⟨st.mux, tr1⟩, []) with
    | (.ok (), (st2, stylesheet)) => (.ok stylesheet, st2)
    | (.error e, (st2, _)) => (.error e, st2)
    | (.panic m, (st2, _)) => (.panic m, st2)

/-- The address of the script:
`fmt.Sprintf("https://cdn.jsdelivr.net/npm/redoc@%s/bundles/redoc.standalone.js", s.version)`. -/
def scriptURL (s : Server) : String :=
  "https://cdn.jsdelivr.net/npm/redoc@" ++ s.version ++ "/bundles/redoc.standalone.js"

/-- The params loop of `Build`: a key of the server params is added when the
map does not hold it yet.  The second list gives the entries in the order in
which the loop ranges over them. -/
def overlayParams : Params → Params → Params
  | params, [] => params
  | params, (k, v) :: rest =>
    match mapGet params k with
    | some _ => overlayParams params rest
    | none => overlayParams (mapSet params k v) rest

/-- The params `Build` hands to the template. -/
def buildParams (s : Server) (scriptPath stylesheetPath : String) : Params :=
  overlayParams
    [("spec", .str s.spec), ("script", .str scriptPath), ("stylesheet", .str stylesheetPath)]
    s.params

/-- The transport `Build` uses: the one it is given, `http.DefaultTransport`
when that is nil. -/
def transportOf (env : Env) (transport : Option RoundTripper) : RoundTripper :=
  match transport with
  | none => env.DefaultTransport
  | some t => t

/-- Build builds the redoc server routes (`Server.Build`). -/
def Server.Build (env : Env) (s : Server) (transport : Option RoundTripper) (tr : List Event) :
    Result Unit × State :=
  let transport := transportOf env transport
  -- retrieve script
  match get env transport (scriptURL s) tr with
  | (.error e, tr1) => (.error e, ⟨s.ServeMux, tr1⟩)
  | (.ok (_, script), tr1) =>
    -- build stylesheet and routes
    match s.buildFontRoutes env transport ⟨s.ServeMux, tr1⟩ with
    | (.error e, st2) => (.error e, st2)
    | (.panic m, st2) => (.panic m, st2)
    | (.ok stylesheet, st2) =>
      -- handle script
      match sliceTo (hexBytes (md5Sum script)) 7 with
      | none => (.panic .sliceBounds, st2)
      | some h1 =>
        let scriptPath := Join [s.pfx, h1] ++ ".js"
        match HandleFunc st2.mux scriptPath ⟨some "text/javascript", script⟩ with
        | .error m => (.panic m, st2)
        | .ok mux3 =>
          -- handle stylesheet
          match sliceTo (hexBytes (md5Sum stylesheet)) 7 with
          | none => (.panic .sliceBounds, ⟨some mux3, st2.trace⟩)
          | some h2 =>
            let stylesheetPath := Join [s.pfx, h2] ++ ".css"
            match HandleFunc (some mux3) stylesheetPath ⟨some "text/css", stylesheet⟩ with
            | .error m => (.panic m, ⟨some mux3, st2.trace⟩)
            | .ok mux4 =>
              -- create template
              let tr5 := st2.trace ++ [Event.parse s.template]
              match env.Parse s.template with
              | some e => (.error e, ⟨some mux4, tr5⟩)
              | none =>
                -- build params
                let params := buildParams s scriptPath stylesheetPath
                -- build index
                let tr6 := tr5 ++ [Event.execute s.template params]
                match env.ExecuteTemplate s.template params with
                | .error e => (.error e, ⟨some mux4, tr6⟩)
                | .ok indexBuf =>
                  -- handle index
                  match HandleFunc (some mux4) s.index ⟨none, indexBuf⟩ with
                  | .error m => (.panic m, ⟨some mux4, tr6⟩)
                  | .ok mux7 => (.ok (), ⟨some mux7, tr6⟩)


/-! ## Specification vocabulary -/

/-- The first seven characters of the hexadecimal digest of a payload. -/
def hex7 (b : Bytes) : String := String.mk ((hexBytes (md5Sum b)).toList.take 7)

/-- The derived path of an asset: `path.Join(prefix, hex[:7]) + ext`. -/
def derivedPath (pfx : String) (b : Bytes) (ext : String) : String :=
  Join [pfx, hex7 b] ++ ext

/-- The trace event of the fetch of a font file. -/
def fetchEvent (r : Route) : Event := Event.get r.URL

/-- The error with which a step fails when it is performed after the calls
of `hist`, if it fails. -/
def stepError (env : Env) (transport : RoundTripper) (hist : List Event) : Event → Option Error
  | .get url =>
    match (get env transport url hist).1 with
    | .error e => some e
    | .ok _ => none
  | .allFontFaces family =>
    match env.AllFontFaces transport hist family with
    | .error e => some e
    | .ok _ => none
  | .parse template => env.Parse template
  | .execute template params =>
    match env.ExecuteTemplate template params with
    | .error e => some e
    | .ok _ => none

/-- Every step of the list succeeds when the steps are performed in order
after the calls of `hist`. -/
def AllSucceeded (env : Env) (transport : RoundTripper) : List Event → List Event → Prop
  | _, [] => True
  | hist, ev :: rest =>
    stepError env transport hist ev = none ∧ AllSucceeded env transport (hist ++ [ev]) rest

/-- A run that stops at its first failure: `added` is a non-empty initial part
of `plan`, all of its steps but the last succeed, and the last fails with `e`. -/
def FailedRun (env : Env) (transport : RoundTripper) (hist plan : List Event) (e : Error)
    (added : List Event) : Prop :=
  ∃ done last, added = done ++ [last] ∧ added <+: plan ∧
    AllSucceeded env transport hist done ∧ stepError env transport (hist ++ done) last = some e

/-- The families the font collaborator yields for the server when the fonts
are resolved after the calls of `hist` (none when the resolution fails). -/
def resolvedFamilies (env : Env) (transport : RoundTripper) (s : Server) (hist : List Event) :
    List Family :=
  match env.AllFontFaces transport hist s.family with
  | .ok fonts => env.families s.pfx fonts
  | .error _ => []

/-- The steps of a build in the order of the source, for the families the font
collaborator yields and the params handed to the template. -/
def buildPlan (s : Server) (fams : List Family) (params : Params) : List Event :=
  [Event.get (scriptURL s), Event.allFontFaces s.family]
    ++ (fams.flatMap Family.routes).map fetchEvent
    ++ [Event.parse s.template, Event.execute s.template params]

/-- The registrations of the font files of `routes` when their fetches start
after the calls of `hist`: for each file, in order and up to the first fetch
that fails, the route path joined to the asset path, with a handler that sets
the content type and writes the bytes which `get` returns for the URL of the
file at that point, that is after the calls of `hist` and the fetches of the
files before it. -/
def fontRegs (env : Env) (transport : RoundTripper) (s : Server) :
    List Event → List Route → List (String × Handler)
  | _, [] => []
  | hist, r :: rs =>
    match (get env transport r.URL hist).1 with
    | .ok (contentType, buf) =>
      (Join [s.pfx, r.Path], ⟨some contentType, buf⟩) ::
        fontRegs env transport s (hist ++ [Event.get r.URL]) rs
    | .error _ => []

/-- A path element that `path.Clean` keeps as it is: not empty, without a
slash, and neither `.` nor `..`. -/
def RealElem (seg : List Char) : Prop :=
  seg ≠ [] ∧ '/' ∉ seg ∧ seg ≠ ['.'] ∧ seg ≠ ['.', '.']

/-- The output buffer of `path.Clean` after real path elements have been
written to it one after the other. -/
def cleanPush (rooted : Bool) : List Char → List (List Char) → List Char
  | out, [] => out
  | out, seg :: segs => cleanPush rooted (cleanAddSep rooted out ++ seg) segs

/-- A clean directory path with a trailing slash: an optional leading slash
and then each element followed by a slash (`""`, `"/"`, `"/_/"`, `"a/b/"`). -/
def dirPath (rooted : Bool) (segs : List (List Char)) : String :=
  String.mk ((if rooted then ['/'] else []) ++ segs.flatMap (fun seg => seg ++ ['/']))

/-! ## A concrete environment -/

/-- A transport for the examples: the script and two font files are served,
a third font file is answered with status 404, a fourth URL redirects to
itself, every other request fails. -/
def demoTransport : RoundTripper := fun _ _ url =>
  if url = "https://cdn.jsdelivr.net/npm/redoc@next/bundles/redoc.standalone.js" then
    .ok ⟨200, "", "application/javascript", .ok (ascii "SCRIPT")⟩
  else if url = "https://fonts.example/montserrat.woff2" then
    .ok ⟨200, "", "font/woff2", .ok [1, 2]⟩
  else if url = "https://fonts.example/roboto.woff2" then
    .ok ⟨200, "", "font/woff2", .ok [3]⟩
  else if url = "https://fonts.example/missing.woff2" then
    .ok ⟨404, "", "text/plain", .ok (ascii "not found")⟩
  else if url = "https://fonts.example/loop.woff2" then
    .ok ⟨302, "https://fonts.example/loop.woff2", "", .ok []⟩
  else .error (.msg "connection refused")

/-- Collaborators for the examples.  The URLs of the examples are absolute,
without password and in the form in which `net/url` prints them.  Every font
face is a family of its own with one font file; the family `Broken` has a face
whose file cannot be fetched, the family `Missing` one whose file is answered
with 404.  The template `\x7b\x7bend\x7d\x7d` does not parse; the other
templates of the examples are plain text and render to their own text. -/
def demoEnv : Env :=
  { DefaultTransport := demoTransport
    NewRequest := fun _ => none
    redact := fun u => u
    resolve := fun _ loc => .ok loc
    AllFontFaces := fun _ _ family =>
      if family = "Broken" then
        .ok [⟨"Montserrat", "https://fonts.example/montserrat.woff2"⟩,
             ⟨"Ghost", "https://fonts.example/ghost.woff2"⟩]
      else if family = "Missing" then
        .ok [⟨"Missing", "https://fonts.example/missing.woff2"⟩]
      else
        .ok [⟨"Montserrat", "https://fonts.example/montserrat.woff2"⟩,
             ⟨"Roboto", "https://fonts.example/roboto.woff2"⟩]
    families := fun _ fonts =>
      fonts.map (fun f => ⟨f.family, ascii ("@font-face " ++ f.family ++ ";"),
        [⟨f.family ++ ".woff2", f.src⟩]⟩)
    Parse := fun t =>
      if t = ascii "\x7b\x7bend\x7d\x7d" then some (.msg "unexpected end") else none
    ExecuteTemplate := fun t _ => .ok t
    DefaultTemplate := ascii "<html>" }

/-- The server of the examples: `New("/spec.json", "/")` with the given
options. -/
def demoServer (opts : List ServerOption) : Server := New demoEnv "/spec.json" "/" opts

/-- The server of the examples with the font family `Broken`, whose second
font file cannot be fetched. -/
def brokenServer : Server := demoServer [WithFamily "Broken"]

end Redoc

namespace Redoc

/-! ## Digest and slicing lemmas -/

theorem leBytes_length (n x : Nat) : (leBytes n x).length = n := by
  simp [leBytes]

theorem md5Sum_length (b : Bytes) : (md5Sum b).length = 16 := by
  simp [md5Sum, leBytes_length]

theorem hexBytes_length (d : List Nat) : (hexBytes d).length = 2 * d.length := by
  unfold hexBytes
  rw [String.length_mk]
  induction d with
  | nil => rfl
  | cons x xs ih => simp [List.flatMap_cons, ih]; omega

theorem hexDigit_mem (n : Nat) (h : n < 16) : hexDigit n ∈ "0123456789abcdef".toList := by
  interval_cases n <;> decide

theorem hexBytes_chars (d : List Nat) : ∀ c ∈ (hexBytes d).toList, c ∈ "0123456789abcdef".toList := by
  intro c hc
  have hl : (hexBytes d).toList = d.flatMap (fun x => [hexDigit (x / 16 % 16), hexDigit (x % 16)]) := rfl
  rw [hl, List.mem_flatMap] at hc
  obtain ⟨x, _, hx⟩ := hc
  simp only [List.mem_cons, List.mem_singleton, List.not_mem_nil, or_false] at hx
  rcases hx with rfl | rfl
  · exact hexDigit_mem _ (Nat.mod_lt _ (by decide))
  · exact hexDigit_mem _ (Nat.mod_lt _ (by decide))

theorem sliceTo_digest (b : Bytes) : sliceTo (hexBytes (md5Sum b)) 7 = some (hex7 b) := by
  simp [sliceTo, hex7, hexBytes_length, md5Sum_length]

theorem hex7_length (b : Bytes) : (hex7 b).length = 7 := by
  have h := hexBytes_length (md5Sum b)
  rw [md5Sum_length] at h
  have h2 : (hexBytes (md5Sum b)).toList.length = (hexBytes (md5Sum b)).length := rfl
  simp only [hex7, String.length_mk, List.length_take]
  omega

theorem hex7_chars (b : Bytes) : ∀ c ∈ (hex7 b).toList, c ∈ "0123456789abcdef".toList := by
  intro c hc
  exact hexBytes_chars _ c (List.mem_of_mem_take hc)

end Redoc

namespace Redoc

/-! ## Maps and template params -/

theorem mapGet_cons (k1 : String) (v1 : Value) (m : Params) (k : String) :
    mapGet ((k1, v1) :: m) k = if k1 = k then some v1 else mapGet m k := by
  by_cases h : k1 = k <;> simp [mapGet, List.find?_cons, h]

theorem mapGet_mapSet (m : Params) (k : String) (v : Value) (k2 : String) :
    mapGet (mapSet m k v) k2 = if k = k2 then some v else mapGet m k2 := by
  induction m with
  | nil => simp [mapSet, mapGet_cons, mapGet]
  | cons kv m ih =>
    obtain ⟨k1, v1⟩ := kv
    by_cases h1 : k1 = k
    · subst h1
      by_cases h2 : k1 = k2 <;> simp [mapSet, mapGet_cons, h2]
    · by_cases h2 : k = k2
      · subst h2
        simp [mapSet, h1, mapGet_cons, ih]
      · simp [mapSet, h1, mapGet_cons, ih, h2]

theorem mapGet_overlayParams (extra base : Params) (k : String) :
    mapGet (overlayParams base extra) k =
      match mapGet base k with
      | some v => some v
      | none => mapGet extra k := by
  induction extra generalizing base with
  | nil =>
    have hn : mapGet [] k = none := rfl
    cases h : mapGet base k <;> simp [overlayParams, h, hn]
  | cons kv rest ih =>
    obtain ⟨k1, v1⟩ := kv
    cases hb : mapGet base k1 with
    | some w =>
      simp only [overlayParams, hb]
      rw [ih]
      by_cases h : k1 = k
      · subst h
        simp [hb]
      · simp [mapGet_cons, h]
    | none =>
      simp only [overlayParams, hb]
      rw [ih, mapGet_mapSet]
      by_cases h : k1 = k
      · subst h
        simp [hb, mapGet_cons]
      · simp [h, mapGet_cons]

theorem mapGet_buildParams (s : Server) (scriptPath stylesheetPath k : String) :
    mapGet (buildParams s scriptPath stylesheetPath) k =
      if k = "spec" then some (Value.str s.spec)
      else if k = "script" then some (Value.str scriptPath)
      else if k = "stylesheet" then some (Value.str stylesheetPath)
      else mapGet s.params k := by
  unfold buildParams
  rw [mapGet_overlayParams]
  simp only [mapGet_cons]
  by_cases h1 : k = "spec"
  · subst h1; simp
  · by_cases h2 : k = "script"
    · subst h2; simp
    · by_cases h3 : k = "stylesheet"
      · subst h3; simp
      · have e1 : ¬ "spec" = k := fun h => h1 h.symm
        have e2 : ¬ "script" = k := fun h => h2 h.symm
        have e3 : ¬ "stylesheet" = k := fun h => h3 h.symm
        simp [h1, h2, h3, e1, e2, e3, mapGet]

/-! ## `get` -/

theorem get_trace (env : Env) (T : RoundTripper) (url : String) (tr : List Event) :
    (get env T url tr).2 = tr ++ [Event.get url] := by
  unfold get
  cases env.NewRequest url with
  | some e => rfl
  | none =>
    cases clientDo env T tr url with
    | error e => rfl
    | ok res =>
      cases hb : res.body <;> simp [hb]

theorem get_ok_iff (env : Env) (T : RoundTripper) (url : String) (tr : List Event)
    (ct : String) (buf : Bytes) :
    (get env T url tr).1 = .ok (ct, buf) ↔
      env.NewRequest url = none ∧
        ∃ res, clientDo env T tr url = .ok res ∧ res.body = .ok buf ∧ res.contentType = ct := by
  unfold get
  cases hn : env.NewRequest url with
  | some e => simp
  | none =>
    cases ht : clientDo env T tr url with
    | error e => simp
    | ok res =>
      cases hb : res.body with
      | error e => simp [hb]
      | ok b =>
        simp only [hb, Except.ok.injEq, Prod.mk.injEq, true_and, exists_eq_left']
        constructor
        · rintro ⟨h1, h2⟩; exact ⟨h2, h1⟩
        · rintro ⟨h1, h2⟩; exact ⟨h2, h1⟩

theorem get_error_iff (env : Env) (T : RoundTripper) (url : String) (tr : List Event)
    (e : Error) :
    (get env T url tr).1 = .error e ↔
      (env.NewRequest url = some e ∨
        (env.NewRequest url = none ∧
          (clientDo env T tr url = .error e ∨
            ∃ res, clientDo env T tr url = .ok res ∧ res.body = .error e))) := by
  unfold get
  cases hn : env.NewRequest url with
  | some e1 => simp
  | none =>
    cases ht : clientDo env T tr url with
    | error e1 => simp
    | ok res =>
      cases hb : res.body with
      | error e1 => simp [hb]
      | ok b => simp [hb]

theorem clientDo_transport_error (env : Env) (T : RoundTripper) (url : String)
    (tr : List Event) (e : Error) (h : T tr [] url = .error e) :
    clientDo env T tr url = .error (.url "Get" (env.redact url) e) := by
  simp [clientDo, clientDoLoop, h]

theorem clientDo_final (env : Env) (T : RoundTripper) (url : String) (tr : List Event)
    (res : Response) (h : T tr [] url = .ok res)
    (hfinal : shouldRedirect res.status = false ∨ res.location = "") :
    clientDo env T tr url = .ok res := by
  unfold clientDo clientDoLoop
  rcases hfinal with h1 | h1
  · simp [h, h1]
  · simp [h, h1]

theorem stepError_get_ok (env : Env) (T : RoundTripper) (url : String) (tr : List Event)
    (x : String × Bytes) (h : (get env T url tr).1 = .ok x) :
    stepError env T tr (Event.get url) = none := by
  simp [stepError, h]

theorem stepError_get_error (env : Env) (T : RoundTripper) (url : String) (tr : List Event)
    (e : Error) (h : (get env T url tr).1 = .error e) :
    stepError env T tr (Event.get url) = some e := by
  simp [stepError, h]

end Redoc

namespace Redoc

/-! ## Runs of steps -/

theorem AllSucceeded_append (env : Env) (T : RoundTripper) (a b hist : List Event) :
    AllSucceeded env T hist (a ++ b) ↔
      AllSucceeded env T hist a ∧ AllSucceeded env T (hist ++ a) b := by
  induction a generalizing hist with
  | nil => simp [AllSucceeded]
  | cons x xs ih =>
    have h1 := ih (hist ++ [x])
    have h2 : hist ++ [x] ++ xs = hist ++ x :: xs := by simp
    rw [h2] at h1
    show stepError env T hist x = none ∧ AllSucceeded env T (hist ++ [x]) (xs ++ b) ↔
      (stepError env T hist x = none ∧ AllSucceeded env T (hist ++ [x]) xs) ∧
        AllSucceeded env T (hist ++ x :: xs) b
    rw [h1, and_assoc]

theorem FailedRun.head (env : Env) (T : RoundTripper) (hist plan : List Event) (e : Error)
    (ev : Event) (h : stepError env T hist ev = some e) :
    FailedRun env T hist (ev :: plan) e [ev] :=
  ⟨[], ev, rfl, by simp, trivial, by simpa using h⟩

theorem FailedRun.cons (env : Env) (T : RoundTripper) (hist plan : List Event) (e : Error)
    (ev : Event) (added : List Event) (h : stepError env T hist ev = none)
    (hr : FailedRun env T (hist ++ [ev]) plan e added) :
    FailedRun env T hist (ev :: plan) e (ev :: added) := by
  obtain ⟨done, last, hadd, hpre, hall, hlast⟩ := hr
  refine ⟨ev :: done, last, by simp [hadd], ?_, ⟨h, hall⟩, ?_⟩
  · exact (List.prefix_cons_inj ev).mpr hpre
  · simpa using hlast

theorem FailedRun.append (env : Env) (T : RoundTripper) (pre hist plan : List Event) (e : Error)
    (added : List Event) (h : AllSucceeded env T hist pre)
    (hr : FailedRun env T (hist ++ pre) plan e added) :
    FailedRun env T hist (pre ++ plan) e (pre ++ added) := by
  induction pre generalizing hist with
  | nil => simpa using hr
  | cons x xs ih =>
    obtain ⟨h1, h2⟩ := h
    refine FailedRun.cons env T hist _ e x _ h1 (ih (hist ++ [x]) h2 ?_)
    simpa using hr

theorem FailedRun.weaken (env : Env) (T : RoundTripper) (hist plan more : List Event) (e : Error)
    (added : List Event) (hr : FailedRun env T hist plan e added) :
    FailedRun env T hist (plan ++ more) e added := by
  obtain ⟨done, last, hadd, hpre, hall, hlast⟩ := hr
  exact ⟨done, last, hadd, hpre.trans (List.prefix_append _ _), hall, hlast⟩

/-! ## Registration -/

theorem fontRegs_append (env : Env) (T : RoundTripper) (s : Server) (a b : List Route)
    (hist : List Event) (hlen : (fontRegs env T s hist a).length = a.length) :
    fontRegs env T s hist (a ++ b) =
      fontRegs env T s hist a ++ fontRegs env T s (hist ++ a.map fetchEvent) b := by
  induction a generalizing hist with
  | nil => simp [fontRegs]
  | cons r rs ih =>
    cases hg : (get env T r.URL hist).1 with
    | error e => simp [fontRegs, hg] at hlen
    | ok x =>
      obtain ⟨ct, buf⟩ := x
      simp only [fontRegs, hg, List.length_cons, Nat.add_right_cancel_iff] at hlen
      have h1 := ih _ hlen
      have h2 : hist ++ [Event.get r.URL] ++ rs.map fetchEvent =
          hist ++ (r :: rs).map fetchEvent := by simp [fetchEvent]
      rw [h2] at h1
      show fontRegs env T s hist (r :: (rs ++ b)) = _
      simp only [fontRegs, hg, h1, List.cons_append]

theorem HandleFunc_ok (mux : Option ServeMux) (p : String) (h : Handler) (m : ServeMux)
    (hm : HandleFunc mux p h = .ok m) :
    p ≠ "" ∧ p ∉ (muxRoutes mux).map Prod.fst ∧ m.routes = muxRoutes mux ++ [(p, h)] := by
  unfold HandleFunc at hm
  cases mux with
  | none => simp at hm
  | some m0 =>
    simp only at hm
    split at hm
    · simp at hm
    · split at hm
      · simp at hm
      · rename_i h1 h2
        simp only [Except.ok.injEq] at hm
        subst hm
        exact ⟨h1, h2, rfl⟩

/-! ## The font loop -/

theorem fontRoutesLoop_any (env : Env) (T : RoundTripper) (s : Server) (routes : List Route)
    (st : State) (r : Result Unit) (st1 : State)
    (h : fontRoutesLoop env T s routes st = (r, st1)) :
    ∃ (regs : List (String × Handler)) (rs : List Route), muxRoutes st1.mux = muxRoutes st.mux ++ regs ∧
      (∀ reg ∈ regs, reg.2.contentType ≠ none) ∧
      st1.trace = st.trace ++ rs.map fetchEvent ∧
      (regs = [] → st1.mux = st.mux) := by
  induction routes generalizing st with
  | nil =>
    simp only [fontRoutesLoop, Prod.mk.injEq] at h
    obtain ⟨_, rfl⟩ := h
    exact ⟨[], [], by simp, by simp, by simp, fun _ => rfl⟩
  | cons route rest ih =>
    have htr := get_trace env T route.URL st.trace
    rcases hg : get env T route.URL st.trace with ⟨res, tr1⟩
    rw [hg] at htr
    simp only at htr
    subst htr
    cases res with
    | error e =>
      simp only [fontRoutesLoop, hg, Prod.mk.injEq] at h
      obtain ⟨_, rfl⟩ := h
      exact ⟨[], [route], by simp, by simp, by simp [fetchEvent], fun _ => rfl⟩
    | ok x =>
      obtain ⟨ct, buf⟩ := x
      cases hh : HandleFunc st.mux (Join [s.pfx, route.Path]) ⟨some ct, buf⟩ with
      | error m =>
        simp only [fontRoutesLoop, hg, hh, Prod.mk.injEq] at h
        obtain ⟨_, rfl⟩ := h
        exact ⟨[], [route], by simp, by simp, by simp [fetchEvent], fun _ => rfl⟩
      | ok m =>
        simp only [fontRoutesLoop, hg, hh] at h
        obtain ⟨regs, rs, h1, h2, h3, _⟩ := ih _ h
        obtain ⟨_, _, hm⟩ := HandleFunc_ok _ _ _ _ hh
        refine ⟨(Join [s.pfx, route.Path], ⟨some ct, buf⟩) :: regs, route :: rs, ?_, ?_, ?_, ?_⟩
        · rw [h1]; simp [muxRoutes, hm]
        · intro reg hreg
          rcases List.mem_cons.mp hreg with rfl | hreg
          · simp
          · exact h2 reg hreg
        · rw [h3]; simp [fetchEvent]
        · intro hc; simp at hc

theorem fontRoutesLoop_ok (env : Env) (T : RoundTripper) (s : Server) (routes : List Route)
    (st : State) (st1 : State)
    (h : fontRoutesLoop env T s routes st = (.ok (), st1)) :
    ∃ regs, regs = fontRegs env T s st.trace routes ∧ regs.length = routes.length ∧
      muxRoutes st1.mux = muxRoutes st.mux ++ regs ∧
      st1.trace = st.trace ++ routes.map fetchEvent ∧
      AllSucceeded env T st.trace (routes.map fetchEvent) ∧
      (((muxRoutes st.mux).map Prod.fst).Nodup → ((muxRoutes st1.mux).map Prod.fst).Nodup) := by
  induction routes generalizing st with
  | nil =>
    simp only [fontRoutesLoop, Prod.mk.injEq, true_and] at h
    subst h
    exact ⟨[], rfl, rfl, by simp, by simp, trivial, id⟩
  | cons route rest ih =>
    have htr := get_trace env T route.URL st.trace
    rcases hg : get env T route.URL st.trace with ⟨res, tr1⟩
    rw [hg] at htr
    simp only at htr
    subst htr
    cases res with
    | error e => simp [fontRoutesLoop, hg] at h
    | ok x =>
      obtain ⟨ct, buf⟩ := x
      cases hh : HandleFunc st.mux (Join [s.pfx, route.Path]) ⟨some ct, buf⟩ with
      | error m => simp [fontRoutesLoop, hg, hh] at h
      | ok m =>
        simp only [fontRoutesLoop, hg, hh] at h
        obtain ⟨regs, h1, hl, h2, h3, h4, h5⟩ := ih _ h
        obtain ⟨_, hnew, hm⟩ := HandleFunc_ok _ _ _ _ hh
        have hgo : (get env T route.URL st.trace).1 = .ok (ct, buf) := by rw [hg]
        refine ⟨(Join [s.pfx, route.Path], ⟨some ct, buf⟩) :: regs, ?_, ?_, ?_, ?_, ?_, ?_⟩
        · rw [h1]; simp only [fontRegs, hgo]
        · simp [hl]
        · rw [h2]; simp [muxRoutes, hm]
        · rw [h3]; simp [fetchEvent]
        · exact ⟨stepError_get_ok env T _ _ _ hgo, h4⟩
        · intro hnd
          apply h5
          simp only [muxRoutes, hm, List.map_append, List.map_cons, List.map_nil]
          rw [List.nodup_append]
          refine ⟨hnd, by simp, ?_⟩
          intro a ha hb
          simp only [List.mem_singleton] at hb
          subst hb
          exact hnew ha

theorem fontRoutesLoop_error (env : Env) (T : RoundTripper) (s : Server) (routes : List Route)
    (st : State) (e : Error) (st1 : State)
    (h : fontRoutesLoop env T s routes st = (.error e, st1)) :
    ∃ added, st1.trace = st.trace ++ added ∧
      FailedRun env T st.trace (routes.map fetchEvent) e added := by
  induction routes generalizing st with
  | nil => simp [fontRoutesLoop] at h
  | cons route rest ih =>
    have htr := get_trace env T route.URL st.trace
    rcases hg : get env T route.URL st.trace with ⟨res, tr1⟩
    rw [hg] at htr
    simp only at htr
    subst htr
    cases res with
    | error e1 =>
      simp only [fontRoutesLoop, hg, Prod.mk.injEq, Result.error.injEq] at h
      obtain ⟨rfl, rfl⟩ := h
      have hge : (get env T route.URL st.trace).1 = .error e1 := by rw [hg]
      exact ⟨[fetchEvent route], rfl,
        FailedRun.head env T _ _ _ _ (stepError_get_error env T _ _ _ hge)⟩
    | ok x =>
      obtain ⟨ct, buf⟩ := x
      cases hh : HandleFunc st.mux (Join [s.pfx, route.Path]) ⟨some ct, buf⟩ with
      | error m => simp [fontRoutesLoop, hg, hh] at h
      | ok m =>
        simp only [fontRoutesLoop, hg, hh] at h
        obtain ⟨added, h1, h2⟩ := ih _ h
        have hgo : (get env T route.URL st.trace).1 = .ok (ct, buf) := by rw [hg]
        refine ⟨fetchEvent route :: added, by rw [h1]; simp [fetchEvent], ?_⟩
        exact FailedRun.cons env T _ _ _ _ _ (stepError_get_ok env T _ _ _ hgo) h2

end Redoc

namespace Redoc

/-! ## The visitor over all families -/

theorem BuildRoutes_any (env : Env) (T : RoundTripper) (s : Server) (fams : List Family)
    (σ : State × Bytes) (r : Result Unit) (σ1 : State × Bytes)
    (h : BuildRoutes (fontVisitor env T s) fams σ = (r, σ1)) :
    ∃ (regs : List (String × Handler)) (rs : List Route),
      muxRoutes σ1.1.mux = muxRoutes σ.1.mux ++ regs ∧
      (∀ reg ∈ regs, reg.2.contentType ≠ none) ∧
      σ1.1.trace = σ.1.trace ++ rs.map fetchEvent ∧
      (regs = [] → σ1.1.mux = σ.1.mux) := by
  induction fams generalizing σ with
  | nil =>
    simp only [BuildRoutes, Prod.mk.injEq] at h
    obtain ⟨_, rfl⟩ := h
    exact ⟨[], [], by simp, by simp, by simp, fun _ => rfl⟩
  | cons f fs ih =>
    rcases hl : fontRoutesLoop env T s f.routes σ.1 with ⟨r1, st1⟩
    obtain ⟨regs1, rs1, a1, a2, a3, a4⟩ := fontRoutesLoop_any env T s _ _ _ _ hl
    cases r1 with
    | ok u =>
      simp only [BuildRoutes, fontVisitor, hl] at h
      obtain ⟨regs2, rs2, b1, b2, b3, b4⟩ := ih _ h
      simp only at b1 b3 b4
      refine ⟨regs1 ++ regs2, rs1 ++ rs2, ?_, ?_, ?_, ?_⟩
      · rw [b1, a1, List.append_assoc]
      · intro reg hreg
        rcases List.mem_append.mp hreg with hreg | hreg
        · exact a2 reg hreg
        · exact b2 reg hreg
      · rw [b3, a3]; simp
      · intro hc
        obtain ⟨c1, c2⟩ := List.append_eq_nil.mp hc
        rw [b4 c2, a4 c1]
    | error e =>
      simp only [BuildRoutes, fontVisitor, hl, Prod.mk.injEq] at h
      obtain ⟨_, rfl⟩ := h
      exact ⟨regs1, rs1, a1, a2, a3, a4⟩
    | panic m =>
      simp only [BuildRoutes, fontVisitor, hl, Prod.mk.injEq] at h
      obtain ⟨_, rfl⟩ := h
      exact ⟨regs1, rs1, a1, a2, a3, a4⟩

theorem BuildRoutes_ok (env : Env) (T : RoundTripper) (s : Server) (fams : List Family)
    (σ : State × Bytes) (σ1 : State × Bytes)
    (h : BuildRoutes (fontVisitor env T s) fams σ = (.ok (), σ1)) :
    ∃ regs, regs = fontRegs env T s σ.1.trace (fams.flatMap Family.routes) ∧
      regs.length = (fams.flatMap Family.routes).length ∧
      muxRoutes σ1.1.mux = muxRoutes σ.1.mux ++ regs ∧
      σ1.1.trace = σ.1.trace ++ (fams.flatMap Family.routes).map fetchEvent ∧
      AllSucceeded env T σ.1.trace ((fams.flatMap Family.routes).map fetchEvent) ∧
      (((muxRoutes σ.1.mux).map Prod.fst).Nodup → ((muxRoutes σ1.1.mux).map Prod.fst).Nodup) ∧
      σ1.2 = σ.2 ++ fams.flatMap Family.css := by
  induction fams generalizing σ with
  | nil =>
    simp only [BuildRoutes, Prod.mk.injEq, true_and] at h
    subst h
    exact ⟨[], rfl, rfl, by simp, by simp, trivial, id, by simp⟩
  | cons f fs ih =>
    rcases hl : fontRoutesLoop env T s f.routes σ.1 with ⟨r1, st1⟩
    cases r1 with
    | ok u =>
      obtain ⟨regs1, a1, al, a2, a3, a4, a5⟩ := fontRoutesLoop_ok env T s _ _ _ hl
      simp only [BuildRoutes, fontVisitor, hl] at h
      obtain ⟨regs2, b1, bl, b2, b3, b4, b5, b6⟩ := ih _ h
      simp only at b1 b2 b3 b4 b5 b6
      refine ⟨regs1 ++ regs2, ?_, ?_, ?_, ?_, ?_, ?_, ?_⟩
      · rw [List.flatMap_cons, fontRegs_append env T s _ _ _ (by rw [← a1]; exact al),
          ← a1, ← a3, ← b1]
      · rw [List.flatMap_cons, List.length_append, List.length_append, al, bl]
      · rw [b2, a2, List.append_assoc]
      · rw [b3, a3]; simp
      · rw [List.flatMap_cons, List.map_append, AllSucceeded_append]
        exact ⟨a4, by rw [← a3]; exact b4⟩
      · exact fun hnd => b5 (a5 hnd)
      · rw [b6]; simp
    | error e => simp [BuildRoutes, fontVisitor, hl] at h
    | panic m => simp [BuildRoutes, fontVisitor, hl] at h

theorem BuildRoutes_error (env : Env) (T : RoundTripper) (s : Server) (fams : List Family)
    (σ : State × Bytes) (e : Error) (σ1 : State × Bytes)
    (h : BuildRoutes (fontVisitor env T s) fams σ = (.error e, σ1)) :
    ∃ added, σ1.1.trace = σ.1.trace ++ added ∧
      FailedRun env T σ.1.trace ((fams.flatMap Family.routes).map fetchEvent) e added := by
  induction fams generalizing σ with
  | nil => simp [BuildRoutes] at h
  | cons f fs ih =>
    rcases hl : fontRoutesLoop env T s f.routes σ.1 with ⟨r1, st1⟩
    cases r1 with
    | ok u =>
      obtain ⟨regs1, a1, _, a2, a3, a4, a5⟩ := fontRoutesLoop_ok env T s _ _ _ hl
      simp only [BuildRoutes, fontVisitor, hl] at h
      obtain ⟨added, b1, b2⟩ := ih _ h
      simp only at b1 b2
      refine ⟨f.routes.map fetchEvent ++ added, by rw [b1, a3, List.append_assoc], ?_⟩
      rw [List.flatMap_cons, List.map_append]
      rw [a3] at b2
      exact FailedRun.append env T _ _ _ _ _ a4 b2
    | error e1 =>
      simp only [BuildRoutes, fontVisitor, hl, Prod.mk.injEq, Result.error.injEq] at h
      obtain ⟨rfl, rfl⟩ := h
      obtain ⟨added, a1, a2⟩ := fontRoutesLoop_error env T s _ _ _ _ hl
      refine ⟨added, a1, ?_⟩
      rw [List.flatMap_cons, List.map_append]
      exact FailedRun.weaken env T _ _ _ _ _ a2
    | panic m => simp [BuildRoutes, fontVisitor, hl] at h

/-! ## `buildFontRoutes` -/

theorem buildFontRoutes_any (env : Env) (s : Server) (T : RoundTripper) (st : State)
    (r : Result Bytes) (st1 : State) (h : s.buildFontRoutes env T st = (r, st1)) :
    ∃ (regs : List (String × Handler)) (rs : List Route),
      muxRoutes st1.mux = muxRoutes st.mux ++ regs ∧
      (∀ reg ∈ regs, reg.2.contentType ≠ none) ∧
      st1.trace = st.trace ++ Event.allFontFaces s.family :: rs.map fetchEvent ∧
      (regs = [] → st1.mux = st.mux) := by
  unfold Server.buildFontRoutes at h
  cases hf : env.AllFontFaces T st.trace s.family with
  | error e =>
    simp only [hf, Prod.mk.injEq] at h
    obtain ⟨_, rfl⟩ := h
    exact ⟨[], [], by simp, by simp, by simp, fun _ => rfl⟩
  | ok fonts =>
    simp only [hf] at h
    rcases hb : BuildRoutes (fontVisitor env T s) (env.families s.pfx fonts)
      (⟨st.mux, st.trace ++ [Event.allFontFaces s.family]⟩, []) with ⟨r1, st2, css⟩
    obtain ⟨regs, rs, a1, a2, a3, a4⟩ := BuildRoutes_any env T s _ _ _ _ hb
    simp only at a1 a3 a4
    rw [hb] at h
    have hst : st1 = st2 := by
      cases r1 <;> simp only [Prod.mk.injEq] at h <;> exact h.2.symm
    subst hst
    exact ⟨regs, rs, a1, a2, by rw [a3]; simp, a4⟩

theorem buildFontRoutes_ok (env : Env) (s : Server) (T : RoundTripper) (st : State)
    (css : Bytes) (st1 : State) (h : s.buildFontRoutes env T st = (.ok css, st1)) :
    (∃ fonts, env.AllFontFaces T st.trace s.family = .ok fonts) ∧
    css = (resolvedFamilies env T s st.trace).flatMap Family.css ∧
    ∃ regs,
      regs = fontRegs env T s (st.trace ++ [Event.allFontFaces s.family])
        ((resolvedFamilies env T s st.trace).flatMap Family.routes) ∧
      regs.length = ((resolvedFamilies env T s st.trace).flatMap Family.routes).length ∧
      muxRoutes st1.mux = muxRoutes st.mux ++ regs ∧
      st1.trace = st.trace ++ Event.allFontFaces s.family ::
        ((resolvedFamilies env T s st.trace).flatMap Family.routes).map fetchEvent ∧
      AllSucceeded env T st.trace (Event.allFontFaces s.family ::
        ((resolvedFamilies env T s st.trace).flatMap Family.routes).map fetchEvent) ∧
      (((muxRoutes st.mux).map Prod.fst).Nodup → ((muxRoutes st1.mux).map Prod.fst).Nodup) := by
  unfold Server.buildFontRoutes at h
  cases hf : env.AllFontFaces T st.trace s.family with
  | error e => simp [hf] at h
  | ok fonts =>
    simp only [hf] at h
    rcases hb : BuildRoutes (fontVisitor env T s) (env.families s.pfx fonts)
      (⟨st.mux, st.trace ++ [Event.allFontFaces s.family]⟩, []) with ⟨r1, st2, css2⟩
    rw [hb] at h
    cases r1 with
    | error e => simp at h
    | panic m => simp at h
    | ok u =>
      simp only [Prod.mk.injEq, Result.ok.injEq] at h
      obtain ⟨rfl, rfl⟩ := h
      obtain ⟨regs, a1, al, a2, a3, a4, a5, a6⟩ := BuildRoutes_ok env T s _ _ _ hb
      simp only at a1 a2 a3 a4 a5 a6
      have hr : resolvedFamilies env T s st.trace = env.families s.pfx fonts := by
        simp [resolvedFamilies, hf]
      rw [hr]
      refine ⟨⟨fonts, rfl⟩, by simpa using a6, regs, a1, al, a2, by rw [a3]; simp, ?_, a5⟩
      exact ⟨by simp [stepError, hf], a4⟩

theorem buildFontRoutes_error (env : Env) (s : Server) (T : RoundTripper) (st : State)
    (e : Error) (st1 : State) (h : s.buildFontRoutes env T st = (.error e, st1)) :
    ∃ added, st1.trace = st.trace ++ added ∧
      FailedRun env T st.trace (Event.allFontFaces s.family ::
        ((resolvedFamilies env T s st.trace).flatMap Family.routes).map fetchEvent) e added := by
  unfold Server.buildFontRoutes at h
  cases hf : env.AllFontFaces T st.trace s.family with
  | error e1 =>
    simp only [hf, Prod.mk.injEq, Result.error.injEq] at h
    obtain ⟨rfl, rfl⟩ := h
    exact ⟨[Event.allFontFaces s.family], rfl,
      FailedRun.head env T _ _ _ _ (by simp [stepError, hf])⟩
  | ok fonts =>
    simp only [hf] at h
    rcases hb : BuildRoutes (fontVisitor env T s) (env.families s.pfx fonts)
      (⟨st.mux, st.trace ++ [Event.allFontFaces s.family]⟩, []) with ⟨r1, st2, css2⟩
    rw [hb] at h
    cases r1 with
    | ok u => simp at h
    | panic m => simp at h
    | error e1 =>
      simp only [Prod.mk.injEq, Result.error.injEq] at h
      obtain ⟨rfl, rfl⟩ := h
      obtain ⟨added, a1, a2⟩ := BuildRoutes_error env T s _ _ _ _ hb
      simp only at a1 a2
      have hr : resolvedFamilies env T s st.trace = env.families s.pfx fonts := by
        simp [resolvedFamilies, hf]
      rw [hr]
      refine ⟨Event.allFontFaces s.family :: added, by rw [a1]; simp, ?_⟩
      exact FailedRun.cons env T _ _ _ _ _ (by simp [stepError, hf]) a2

/-! ## The font loop over the routes of all families -/

theorem fontRoutesLoop_append (env : Env) (T : RoundTripper) (s : Server) (a b : List Route)
    (st : State) :
    fontRoutesLoop env T s (a ++ b) st =
      match fontRoutesLoop env T s a st with
      | (.ok (), st1) => fontRoutesLoop env T s b st1
      | (.error e, st1) => (.error e, st1)
      | (.panic p, st1) => (.panic p, st1) := by
  induction a generalizing st with
  | nil => simp [fontRoutesLoop]
  | cons r rs ih =>
    rcases hg : get env T r.URL st.trace with ⟨res, tr1⟩
    cases res with
    | error e => simp [fontRoutesLoop, hg]
    | ok x =>
      obtain ⟨ct, buf⟩ := x
      cases hh : HandleFunc st.mux (Join [s.pfx, r.Path]) ⟨some ct, buf⟩ with
      | error p => simp [fontRoutesLoop, hg, hh]
      | ok m =>
        simp only [List.cons_append, fontRoutesLoop, hg, hh]
        exact ih _

theorem BuildRoutes_flat (env : Env) (T : RoundTripper) (s : Server) (fams : List Family)
    (σ : State × Bytes) :
    ((BuildRoutes (fontVisitor env T s) fams σ).1, (BuildRoutes (fontVisitor env T s) fams σ).2.1)
      = fontRoutesLoop env T s (fams.flatMap Family.routes) σ.1 := by
  induction fams generalizing σ with
  | nil => simp [BuildRoutes, fontRoutesLoop]
  | cons f fs ih =>
    rw [List.flatMap_cons, fontRoutesLoop_append]
    rcases hl : fontRoutesLoop env T s f.routes σ.1 with ⟨r1, st1⟩
    cases r1 with
    | ok u =>
      simp only [BuildRoutes, fontVisitor, hl]
      exact ih _
    | error e => simp [BuildRoutes, fontVisitor, hl]
    | panic p => simp [BuildRoutes, fontVisitor, hl]

theorem fontRoutesLoop_fails_at (env : Env) (T : RoundTripper) (s : Server)
    (pre post : List Route) (r : Route) (st stk : State) (e : Error)
    (hpre : fontRoutesLoop env T s pre st = (.ok (), stk))
    (hget : (get env T r.URL stk.trace).1 = .error e) :
    fontRoutesLoop env T s (pre ++ r :: post) st =
      (.error e, ⟨stk.mux, stk.trace ++ [Event.get r.URL]⟩) := by
  rw [fontRoutesLoop_append, hpre]
  have htr := get_trace env T r.URL stk.trace
  rcases hg : get env T r.URL stk.trace with ⟨res, tr1⟩
  rw [hg] at hget htr
  simp only at hget htr
  subst hget htr
  simp [fontRoutesLoop, hg]

theorem fontRoutesLoop_total (env : Env) (T : RoundTripper) (s : Server) (routes : List Route)
    (st : State) (m : ServeMux) (hmux : st.mux = some m)
    (hfetch : AllSucceeded env T st.trace (routes.map fetchEvent))
    (hne : ∀ r ∈ routes, Join [s.pfx, r.Path] ≠ "")
    (hnd : (routes.map (fun r => Join [s.pfx, r.Path])).Nodup)
    (hfresh : ∀ r ∈ routes, Join [s.pfx, r.Path] ∉ m.routes.map Prod.fst) :
    ∃ st1, fontRoutesLoop env T s routes st = (.ok (), st1) := by
  induction routes generalizing st m with
  | nil => exact ⟨st, rfl⟩
  | cons r rs ih =>
    obtain ⟨h1, h2⟩ := hfetch
    have htr := get_trace env T r.URL st.trace
    rcases hg : get env T r.URL st.trace with ⟨res, tr1⟩
    rw [hg] at htr
    simp only at htr
    subst htr
    cases res with
    | error e =>
      have : (get env T r.URL st.trace).1 = .error e := by rw [hg]
      rw [fetchEvent, stepError_get_error env T _ _ e this] at h1
      cases h1
    | ok x =>
      obtain ⟨ct, buf⟩ := x
      have hp := hne r (by simp)
      have hf := hfresh r (by simp)
      have hh : HandleFunc st.mux (Join [s.pfx, r.Path]) ⟨some ct, buf⟩ =
          .ok ⟨m.routes ++ [(Join [s.pfx, r.Path], ⟨some ct, buf⟩)]⟩ := by
        simp [HandleFunc, hmux, hp, hf]
      simp only [fontRoutesLoop, hg, hh]
      simp only [List.map_cons, List.nodup_cons] at hnd
      refine ih _ _ rfl h2 (fun x hx => hne x (List.mem_cons_of_mem _ hx)) hnd.2 ?_
      intro x hx hmem
      simp only [List.map_append, List.map_cons, List.map_nil, List.mem_append,
        List.mem_singleton] at hmem
      rcases hmem with hmem | hmem
      · exact hfresh x (List.mem_cons_of_mem _ hx) hmem
      · exact hnd.1 (hmem ▸ List.mem_map_of_mem _ hx)

end Redoc

namespace Redoc

/-! ## `Build` -/

theorem Build_ok (env : Env) (s : Server) (transport : Option RoundTripper) (tr : List Event)
    (st1 : State) (T : RoundTripper) (fams : List Family) (css : Bytes)
    (hT : T = transportOf env transport)
    (hfams : fams = resolvedFamilies env T s (tr ++ [Event.get (scriptURL s)]))
    (hcss : css = fams.flatMap Family.css)
    (h : s.Build env transport tr = (.ok (), st1)) :
    ∃ ct script regs indexBuf,
      (get env T (scriptURL s) tr).1 = .ok (ct, script) ∧
      (s.buildFontRoutes env T ⟨s.ServeMux, tr ++ [Event.get (scriptURL s)]⟩).1 = .ok css ∧
      regs = fontRegs env T s (tr ++ [Event.get (scriptURL s), Event.allFontFaces s.family])
        (fams.flatMap Family.routes) ∧
      regs.length = (fams.flatMap Family.routes).length ∧
      env.ExecuteTemplate s.template
        (buildParams s (derivedPath s.pfx script ".js") (derivedPath s.pfx css ".css"))
          = .ok indexBuf ∧
      muxRoutes st1.mux = muxRoutes s.ServeMux ++ regs ++
        [(derivedPath s.pfx script ".js", ⟨some "text/javascript", script⟩),
         (derivedPath s.pfx css ".css", ⟨some "text/css", css⟩),
         (s.index, ⟨none, indexBuf⟩)] ∧
      st1.trace = tr ++ buildPlan s fams
        (buildParams s (derivedPath s.pfx script ".js") (derivedPath s.pfx css ".css")) ∧
      (((muxRoutes s.ServeMux).map Prod.fst).Nodup → ((muxRoutes st1.mux).map Prod.fst).Nodup) := by
  unfold Server.Build at h
  simp only [sliceTo_digest, ← hT] at h
  have htr := get_trace env T (scriptURL s) tr
  rcases hg : get env T (scriptURL s) tr with ⟨res, tr1⟩
  rw [hg] at htr h
  simp only at htr
  subst htr
  cases res with
  | error e => simp at h
  | ok x =>
    obtain ⟨ct, script⟩ := x
    simp only at h
    rcases hb : s.buildFontRoutes env T ⟨s.ServeMux, tr ++ [Event.get (scriptURL s)]⟩ with ⟨r2, st2⟩
    rw [hb] at h
    cases r2 with
    | error e => simp at h
    | panic m => simp at h
    | ok css2 =>
      obtain ⟨_, a1, regs, a2, al, a3, a4, a5, a6⟩ := buildFontRoutes_ok env s T _ _ _ hb
      simp only at a1 a2 al a3 a4 a5 a6
      rw [← hfams] at a1 a2 al a4 a5
      rw [← hcss] at a1
      subst a1
      simp only at h
      split at h
      · simp at h
      · rename_i mux3 h3
        split at h
        · simp at h
        · rename_i mux4 h4
          split at h
          · simp at h
          · rename_i h5
            split at h
            · simp at h
            · rename_i indexBuf h6
              split at h
              · simp at h
              · rename_i mux7 h7
                simp only [Prod.mk.injEq, true_and] at h
                subst h
                obtain ⟨_, n3, r3⟩ := HandleFunc_ok _ _ _ _ h3
                obtain ⟨_, n4, r4⟩ := HandleFunc_ok _ _ _ _ h4
                obtain ⟨_, n7, r7⟩ := HandleFunc_ok _ _ _ _ h7
                simp only [muxRoutes] at r4 r7 n4 n7
                have hroutes : mux7.routes = muxRoutes s.ServeMux ++ regs ++
                    [(derivedPath s.pfx script ".js", ⟨some "text/javascript", script⟩),
                     (derivedPath s.pfx css2 ".css", ⟨some "text/css", css2⟩),
                     (s.index, ⟨none, indexBuf⟩)] := by
                  rw [r7, r4, r3, a3]
                  simp [derivedPath]
                refine ⟨ct, script, regs, indexBuf, rfl, rfl, by simpa using a2, al, h6, hroutes,
                  ?_, ?_⟩
                · simp only [a4, buildPlan, derivedPath]
                  simp
                · intro hnd
                  have d2 := a6 hnd
                  have d3 : (List.map Prod.fst mux3.routes).Nodup := by
                    rw [r3, List.map_append, List.nodup_append]
                    refine ⟨d2, by simp, ?_⟩
                    intro a ha hb2
                    simp only [List.map_cons, List.map_nil, List.mem_singleton] at hb2
                    subst hb2
                    exact n3 ha
                  have d4 : (List.map Prod.fst mux4.routes).Nodup := by
                    rw [r4, List.map_append, List.nodup_append]
                    refine ⟨d3, by simp, ?_⟩
                    intro a ha hb2
                    simp only [List.map_cons, List.map_nil, List.mem_singleton] at hb2
                    subst hb2
                    exact n4 ha
                  show (List.map Prod.fst mux7.routes).Nodup
                  rw [r7, List.map_append, List.nodup_append]
                  refine ⟨d4, by simp, ?_⟩
                  intro a ha hb2
                  simp only [List.map_cons, List.map_nil, List.mem_singleton] at hb2
                  subst hb2
                  exact n7 ha

end Redoc

namespace Redoc

theorem buildPlan_eq (s : Server) (fams : List Family) (p : Params) :
    buildPlan s fams p =
      Event.get (scriptURL s) ::
        ((Event.allFontFaces s.family :: (fams.flatMap Family.routes).map fetchEvent) ++
          [Event.parse s.template, Event.execute s.template p]) := by
  simp [buildPlan]

theorem Build_error (env : Env) (s : Server) (transport : Option RoundTripper) (tr : List Event)
    (e : Error) (st1 : State) (T : RoundTripper) (fams : List Family)
    (hT : T = transportOf env transport)
    (hfams : fams = resolvedFamilies env T s (tr ++ [Event.get (scriptURL s)]))
    (h : s.Build env transport tr = (.error e, st1)) :
    ∃ (added : List Event) (p : Params) (regs : List (String × Handler)),
      st1.trace = tr ++ added ∧
      FailedRun env T tr (buildPlan s fams p) e added ∧
      muxRoutes st1.mux = muxRoutes s.ServeMux ++ regs ∧
      (∀ reg ∈ regs, reg.2.contentType ≠ none) := by
  unfold Server.Build at h
  simp only [sliceTo_digest, ← hT] at h
  have htr := get_trace env T (scriptURL s) tr
  rcases hg : get env T (scriptURL s) tr with ⟨res, tr1⟩
  rw [hg] at htr h
  simp only at htr
  subst htr
  cases res with
  | error e1 =>
    simp only [Prod.mk.injEq, Result.error.injEq] at h
    obtain ⟨rfl, rfl⟩ := h
    have hge : (get env T (scriptURL s) tr).1 = .error e1 := by rw [hg]
    refine ⟨[Event.get (scriptURL s)], [], [], rfl, ?_, by simp, by simp⟩
    rw [buildPlan_eq]
    exact FailedRun.head env T _ _ _ _ (stepError_get_error env T _ _ _ hge)
  | ok x =>
    obtain ⟨ct, script⟩ := x
    have hgo : (get env T (scriptURL s) tr).1 = .ok (ct, script) := by rw [hg]
    have hgs := stepError_get_ok env T _ _ _ hgo
    simp only at h
    rcases hb : s.buildFontRoutes env T ⟨s.ServeMux, tr ++ [Event.get (scriptURL s)]⟩ with ⟨r2, st2⟩
    rw [hb] at h
    obtain ⟨regs, rs, c1, c2, c3, c4⟩ := buildFontRoutes_any env s T _ _ _ hb
    simp only at c1 c3 c4
    cases r2 with
    | error e2 =>
      simp only [Prod.mk.injEq, Result.error.injEq] at h
      obtain ⟨rfl, rfl⟩ := h
      obtain ⟨added, b1, b2⟩ := buildFontRoutes_error env s T _ _ _ hb
      simp only at b1 b2
      rw [← hfams] at b2
      refine ⟨Event.get (scriptURL s) :: added, [], regs, by rw [b1]; simp, ?_, c1, c2⟩
      rw [buildPlan_eq]
      exact FailedRun.cons env T _ _ _ _ _ hgs (FailedRun.weaken env T _ _ _ _ _ b2)
    | panic m => simp at h
    | ok css =>
      obtain ⟨_, a1, regs2, a2, _, a3, a4, a5, a6⟩ := buildFontRoutes_ok env s T _ _ _ hb
      simp only at a1 a2 a3 a4 a5 a6
      rw [← hfams] at a1 a2 a4 a5
      simp only at h
      split at h
      · simp at h
      · rename_i mux3 h3
        split at h
        · simp at h
        · rename_i mux4 h4
          obtain ⟨_, n3, r3⟩ := HandleFunc_ok _ _ _ _ h3
          obtain ⟨_, n4, r4⟩ := HandleFunc_ok _ _ _ _ h4
          simp only [muxRoutes] at r4
          have hroutes : mux4.routes = muxRoutes s.ServeMux ++ (regs2 ++
              [(derivedPath s.pfx script ".js", ⟨some "text/javascript", script⟩),
               (derivedPath s.pfx css ".css", ⟨some "text/css", css⟩)]) := by
            rw [r4, r3, a3]
            simp [derivedPath]
          have hct : ∀ reg ∈ regs2 ++
              [(derivedPath s.pfx script ".js", (⟨some "text/javascript", script⟩ : Handler)),
               (derivedPath s.pfx css ".css", ⟨some "text/css", css⟩)],
              reg.2.contentType ≠ none := by
            intro reg hreg
            rcases List.mem_append.mp hreg with hreg | hreg
            · have hreq : regs2 = regs := List.append_cancel_left (a3.symm.trans c1)
              exact c2 reg (hreq ▸ hreg)
            · simp only [List.mem_cons, List.mem_singleton, List.not_mem_nil, or_false] at hreg
              rcases hreg with rfl | rfl <;> simp
          have hpre : AllSucceeded env T tr
              (Event.get (scriptURL s) ::
                (Event.allFontFaces s.family :: (fams.flatMap Family.routes).map fetchEvent)) :=
            ⟨hgs, a5⟩
          split at h
          · rename_i e5 h5
            simp only [Prod.mk.injEq, Result.error.injEq] at h
            obtain ⟨rfl, rfl⟩ := h
            refine ⟨Event.get (scriptURL s) ::
                (Event.allFontFaces s.family :: (fams.flatMap Family.routes).map fetchEvent) ++
                [Event.parse s.template], [], _, ?_, ?_, hroutes, hct⟩
            · simp [a4]
            · rw [buildPlan_eq]
              have := FailedRun.append env T _ tr
                [Event.parse s.template, Event.execute s.template []] e5 [Event.parse s.template]
                hpre (FailedRun.head env T _ _ _ _ (by simpa [stepError] using h5))
              simpa using this
          · rename_i h5
            split at h
            · rename_i e6 h6
              simp only [Prod.mk.injEq, Result.error.injEq] at h
              obtain ⟨rfl, rfl⟩ := h
              refine ⟨Event.get (scriptURL s) ::
                (Event.allFontFaces s.family :: (fams.flatMap Family.routes).map fetchEvent) ++
                [Event.parse s.template, Event.execute s.template
                  (buildParams s (Join [s.pfx, hex7 script] ++ ".js") (Join [s.pfx, hex7 css] ++ ".css"))],
                (buildParams s (Join [s.pfx, hex7 script] ++ ".js") (Join [s.pfx, hex7 css] ++ ".css")), _, ?_, ?_, hroutes, hct⟩
              · simp [a4]
              · rw [buildPlan_eq]
                have hp : AllSucceeded env T (tr ++ (Event.get (scriptURL s) ::
                    (Event.allFontFaces s.family :: (fams.flatMap Family.routes).map fetchEvent)))
                    [Event.parse s.template] := ⟨by simpa [stepError] using h5, trivial⟩
                have hall := (AllSucceeded_append env T _ [Event.parse s.template] tr).mpr ⟨hpre, hp⟩
                have := FailedRun.append env T _ tr
                  [Event.execute s.template (buildParams s (Join [s.pfx, hex7 script] ++ ".js") (Join [s.pfx, hex7 css] ++ ".css"))] e6
                  [Event.execute s.template (buildParams s (Join [s.pfx, hex7 script] ++ ".js") (Join [s.pfx, hex7 css] ++ ".css"))]
                  hall (FailedRun.head env T _ _ _ _ (by simp [stepError, h6]))
                simpa using this
            · split at h <;> simp at h

end Redoc

namespace Redoc

theorem Build_script_error (env : Env) (s : Server) (transport : Option RoundTripper)
    (tr : List Event) (e : Error)
    (h : (get env (transportOf env transport) (scriptURL s) tr).1 = .error e) :
    s.Build env transport tr = (.error e, ⟨s.ServeMux, tr ++ [Event.get (scriptURL s)]⟩) := by
  have htr := get_trace env (transportOf env transport) (scriptURL s) tr
  rcases hg : get env (transportOf env transport) (scriptURL s) tr with ⟨res, tr1⟩
  rw [hg] at h htr
  simp only at h htr
  subst h htr
  simp only [Server.Build, hg]

theorem Build_fonts_error_result (env : Env) (s : Server) (transport : Option RoundTripper)
    (tr : List Event) (x : String × Bytes) (e : Error)
    (hg : (get env (transportOf env transport) (scriptURL s) tr).1 = .ok x)
    (hf : env.AllFontFaces (transportOf env transport) (tr ++ [Event.get (scriptURL s)]) s.family
      = .error e) :
    s.Build env transport tr =
      (.error e, ⟨s.ServeMux, tr ++ [Event.get (scriptURL s)] ++ [Event.allFontFaces s.family]⟩) := by
  have htr := get_trace env (transportOf env transport) (scriptURL s) tr
  rcases hgg : get env (transportOf env transport) (scriptURL s) tr with ⟨res, tr1⟩
  rw [hgg] at hg htr
  simp only at hg htr
  subst hg htr
  simp only [Server.Build, hgg, Server.buildFontRoutes, hf]

theorem Build_execute (env : Env) (s : Server) (transport : Option RoundTripper) (tr : List Event)
    (r : Result Unit) (st1 : State) (tpl : Bytes) (p : Params)
    (h : s.Build env transport tr = (r, st1))
    (hmem : Event.execute tpl p ∈ st1.trace.drop tr.length) :
    ∃ ct script css,
      (get env (transportOf env transport) (scriptURL s) tr).1 = .ok (ct, script) ∧
      (s.buildFontRoutes env (transportOf env transport)
        ⟨s.ServeMux, tr ++ [Event.get (scriptURL s)]⟩).1 = .ok css ∧
      tpl = s.template ∧
      p = buildParams s (derivedPath s.pfx script ".js") (derivedPath s.pfx css ".css") := by
  have htr := get_trace env (transportOf env transport) (scriptURL s) tr
  unfold Server.Build at h
  simp only [sliceTo_digest] at h
  rcases hg : get env (transportOf env transport) (scriptURL s) tr with ⟨res, tr1⟩
  rw [hg] at h htr
  simp only at htr
  subst htr
  cases res with
  | error e1 =>
    simp only [Prod.mk.injEq] at h
    obtain ⟨_, rfl⟩ := h
    simp at hmem
  | ok x =>
    obtain ⟨ct, script⟩ := x
    simp only at h
    rcases hb : s.buildFontRoutes env (transportOf env transport)
      ⟨s.ServeMux, tr ++ [Event.get (scriptURL s)]⟩ with ⟨r2, st2⟩
    rw [hb] at h
    obtain ⟨regs, rs, c1, c2, c3, c4⟩ := buildFontRoutes_any env s _ _ _ _ hb
    simp only at c3
    have hno : ∀ more : List Event,
        Event.execute tpl p ∈ (st2.trace ++ more).drop tr.length → Event.execute tpl p ∈ more := by
      intro more hm
      rw [c3] at hm
      simp only [List.append_assoc, List.drop_left, List.mem_append, List.mem_cons,
        List.mem_map, fetchEvent, List.not_mem_nil, false_or, or_false, List.singleton_append,
        List.cons_append, List.nil_append] at hm
      rcases hm with hm | hm | hm
      · cases hm
      · cases hm
      · rcases hm with ⟨_, _, hm⟩ | hm
        · cases hm
        · exact hm
    have hno0 : Event.execute tpl p ∉ st2.trace.drop tr.length := by
      intro hm
      have := hno [] (by simpa using hm)
      simp at this
    cases r2 with
    | error e2 =>
      simp only [Prod.mk.injEq] at h
      obtain ⟨_, rfl⟩ := h
      exact absurd hmem hno0
    | panic m =>
      simp only [Prod.mk.injEq] at h
      obtain ⟨_, rfl⟩ := h
      exact absurd hmem hno0
    | ok css =>
      simp only at h
      split at h
      · simp only [Prod.mk.injEq] at h
        obtain ⟨_, rfl⟩ := h
        exact absurd hmem hno0
      · split at h
        · simp only [Prod.mk.injEq] at h
          obtain ⟨_, rfl⟩ := h
          exact absurd hmem hno0
        · split at h
          · simp only [Prod.mk.injEq] at h
            obtain ⟨_, rfl⟩ := h
            have := hno _ hmem
            simp at this
          · have key : ∀ mux, st1 = ⟨mux, st2.trace ++ [Event.parse s.template] ++
                [Event.execute s.template (buildParams s (Join [s.pfx, hex7 script] ++ ".js")
                  (Join [s.pfx, hex7 css] ++ ".css"))]⟩ →
                tpl = s.template ∧
                p = buildParams s (derivedPath s.pfx script ".js")
                  (derivedPath s.pfx css ".css") := by
              intro mux hst
              subst hst
              simp only [List.append_assoc] at hmem
              have := hno _ hmem
              simp only [List.singleton_append, List.mem_cons, List.not_mem_nil, or_false,
                Event.execute.injEq, false_or] at this
              rcases this with hc | hc
              · cases hc
              · exact ⟨hc.1, hc.2⟩
            split at h
            · simp only [Prod.mk.injEq] at h
              obtain ⟨k1, k2⟩ := key _ h.2.symm
              exact ⟨ct, script, css, rfl, rfl, k1, k2⟩
            · split at h
              · simp only [Prod.mk.injEq] at h
                obtain ⟨k1, k2⟩ := key _ h.2.symm
                exact ⟨ct, script, css, rfl, rfl, k1, k2⟩
              · simp only [Prod.mk.injEq] at h
                obtain ⟨k1, k2⟩ := key _ h.2.symm
                exact ⟨ct, script, css, rfl, rfl, k1, k2⟩

end Redoc

namespace Redoc

/-! ## The routes left behind by a failing build -/

theorem fontRoutesLoop_error_routes (env : Env) (T : RoundTripper) (s : Server)
    (routes : List Route) (st : State) (e : Error) (st1 : State)
    (h : fontRoutesLoop env T s routes st = (.error e, st1)) :
    ∃ k regs, k < routes.length ∧
      regs = fontRegs env T s st.trace (routes.take k) ∧ regs.length = k ∧
      st1.trace = st.trace ++ (routes.take (k + 1)).map fetchEvent ∧
      muxRoutes st1.mux = muxRoutes st.mux ++ regs := by
  induction routes generalizing st with
  | nil => simp [fontRoutesLoop] at h
  | cons route rest ih =>
    have htr := get_trace env T route.URL st.trace
    rcases hg : get env T route.URL st.trace with ⟨res, tr1⟩
    rw [hg] at htr
    simp only at htr
    subst htr
    cases res with
    | error e1 =>
      simp only [fontRoutesLoop, hg, Prod.mk.injEq, Result.error.injEq] at h
      obtain ⟨_, rfl⟩ := h
      exact ⟨0, [], by simp, by simp [fontRegs], rfl, by simp [fetchEvent], by simp⟩
    | ok x =>
      obtain ⟨ct, buf⟩ := x
      cases hh : HandleFunc st.mux (Join [s.pfx, route.Path]) ⟨some ct, buf⟩ with
      | error m => simp [fontRoutesLoop, hg, hh] at h
      | ok m =>
        simp only [fontRoutesLoop, hg, hh] at h
        obtain ⟨k, regs, h1, h2, hl, h3, h4⟩ := ih _ h
        obtain ⟨_, _, hm⟩ := HandleFunc_ok _ _ _ _ hh
        have hgo : (get env T route.URL st.trace).1 = .ok (ct, buf) := by rw [hg]
        refine ⟨k + 1, (Join [s.pfx, route.Path], ⟨some ct, buf⟩) :: regs, by simpa using h1,
          ?_, by simp [hl], ?_, ?_⟩
        · rw [List.take_succ_cons, h2]
          simp only [fontRegs, hgo]
        · rw [h3]; simp [fetchEvent]
        · rw [h4]; simp [muxRoutes, hm]

theorem BuildRoutes_error_routes (env : Env) (T : RoundTripper) (s : Server)
    (fams : List Family) (σ : State × Bytes) (e : Error) (σ1 : State × Bytes)
    (h : BuildRoutes (fontVisitor env T s) fams σ = (.error e, σ1)) :
    ∃ k regs, k < (fams.flatMap Family.routes).length ∧
      regs = fontRegs env T s σ.1.trace ((fams.flatMap Family.routes).take k) ∧
      regs.length = k ∧
      σ1.1.trace = σ.1.trace ++ ((fams.flatMap Family.routes).take (k + 1)).map fetchEvent ∧
      muxRoutes σ1.1.mux = muxRoutes σ.1.mux ++ regs := by
  induction fams generalizing σ with
  | nil => simp [BuildRoutes] at h
  | cons f fs ih =>
    rcases hl : fontRoutesLoop env T s f.routes σ.1 with ⟨r1, st1⟩
    cases r1 with
    | ok u =>
      obtain ⟨regs1, a1, al, a2, a3, _, _⟩ := fontRoutesLoop_ok env T s _ _ _ hl
      simp only [BuildRoutes, fontVisitor, hl] at h
      obtain ⟨k, regs2, b1, b2, bl, b3, b4⟩ := ih _ h
      simp only at b2 b3 b4
      refine ⟨f.routes.length + k, regs1 ++ regs2, ?_, ?_, ?_, ?_, ?_⟩
      · rw [List.flatMap_cons, List.length_append]; omega
      · rw [List.flatMap_cons, List.take_append,
          fontRegs_append env T s _ _ _ (by rw [← a1]; exact al), ← a1, ← a3, ← b2]
      · rw [List.length_append, al, bl]
      · rw [b3, a3, List.flatMap_cons, Nat.add_assoc, List.take_append]
        simp
      · rw [b4, a2, List.append_assoc]
    | error e1 =>
      simp only [BuildRoutes, fontVisitor, hl, Prod.mk.injEq, Result.error.injEq] at h
      obtain ⟨_, rfl⟩ := h
      obtain ⟨k, regs, a1, a2, al, a3, a4⟩ := fontRoutesLoop_error_routes env T s _ _ _ _ hl
      refine ⟨k, regs, ?_, ?_, al, ?_, a4⟩
      · rw [List.flatMap_cons, List.length_append]; omega
      · rw [List.flatMap_cons, List.take_append_of_le_length (by omega)]
        exact a2
      · rw [a3, List.flatMap_cons, List.take_append_of_le_length (by omega)]
    | panic m => simp [BuildRoutes, fontVisitor, hl] at h

theorem buildFontRoutes_error_routes (env : Env) (s : Server) (T : RoundTripper) (st : State)
    (e : Error) (st1 : State) (h : s.buildFontRoutes env T st = (.error e, st1)) :
    (st1.mux = st.mux ∧ st1.trace = st.trace ++ [Event.allFontFaces s.family]) ∨
    ∃ k regs, k < ((resolvedFamilies env T s st.trace).flatMap Family.routes).length ∧
      regs = fontRegs env T s (st.trace ++ [Event.allFontFaces s.family])
        (((resolvedFamilies env T s st.trace).flatMap Family.routes).take k) ∧
      regs.length = k ∧
      st1.trace = st.trace ++ Event.allFontFaces s.family ::
        (((resolvedFamilies env T s st.trace).flatMap Family.routes).take (k + 1)).map
          fetchEvent ∧
      muxRoutes st1.mux = muxRoutes st.mux ++ regs := by
  unfold Server.buildFontRoutes at h
  cases hf : env.AllFontFaces T st.trace s.family with
  | error e1 =>
    simp only [hf, Prod.mk.injEq, Result.error.injEq] at h
    obtain ⟨_, rfl⟩ := h
    exact Or.inl ⟨rfl, rfl⟩
  | ok fonts =>
    simp only [hf] at h
    rcases hb : BuildRoutes (fontVisitor env T s) (env.families s.pfx fonts)
      (⟨st.mux, st.trace ++ [Event.allFontFaces s.family]⟩, []) with ⟨r1, st2, css2⟩
    rw [hb] at h
    cases r1 with
    | ok u => simp at h
    | panic m => simp at h
    | error e1 =>
      simp only [Prod.mk.injEq, Result.error.injEq] at h
      obtain ⟨_, rfl⟩ := h
      obtain ⟨k, regs, a1, a2, al, a3, a4⟩ := BuildRoutes_error_routes env T s _ _ _ _ hb
      simp only at a2 a3 a4
      have hr : resolvedFamilies env T s st.trace = env.families s.pfx fonts := by
        simp [resolvedFamilies, hf]
      rw [hr]
      exact Or.inr ⟨k, regs, a1, a2, al, by rw [a3]; simp, a4⟩

theorem Build_error_cases (env : Env) (s : Server) (transport : Option RoundTripper)
    (tr : List Event) (e : Error) (st1 : State) (T : RoundTripper) (routes : List Route)
    (hT : T = transportOf env transport)
    (hroutes : routes =
      (resolvedFamilies env T s (tr ++ [Event.get (scriptURL s)])).flatMap Family.routes)
    (h : s.Build env transport tr = (.error e, st1)) :
    (st1.mux = s.ServeMux ∧
      (st1.trace = tr ++ [Event.get (scriptURL s)] ∨
       st1.trace = tr ++ [Event.get (scriptURL s), Event.allFontFaces s.family])) ∨
    (∃ k regs, k < routes.length ∧
      regs = fontRegs env T s (tr ++ [Event.get (scriptURL s), Event.allFontFaces s.family])
        (routes.take k) ∧
      regs.length = k ∧
      st1.trace = tr ++ Event.get (scriptURL s) :: Event.allFontFaces s.family ::
        (routes.take (k + 1)).map fetchEvent ∧
      muxRoutes st1.mux = muxRoutes s.ServeMux ++ regs) ∨
    (∃ ct script css regs p,
      (get env T (scriptURL s) tr).1 = .ok (ct, script) ∧
      (s.buildFontRoutes env T ⟨s.ServeMux, tr ++ [Event.get (scriptURL s)]⟩).1 = .ok css ∧
      regs = fontRegs env T s (tr ++ [Event.get (scriptURL s), Event.allFontFaces s.family])
        routes ∧
      regs.length = routes.length ∧
      (st1.trace = tr ++ Event.get (scriptURL s) :: Event.allFontFaces s.family ::
          (routes.map fetchEvent ++ [Event.parse s.template]) ∨
       st1.trace = tr ++ Event.get (scriptURL s) :: Event.allFontFaces s.family ::
          (routes.map fetchEvent ++ [Event.parse s.template, Event.execute s.template p])) ∧
      muxRoutes st1.mux = muxRoutes s.ServeMux ++ regs ++
        [(Join [s.pfx, hex7 script] ++ ".js", ⟨some "text/javascript", script⟩),
         (Join [s.pfx, hex7 css] ++ ".css", ⟨some "text/css", css⟩)]) := by
  unfold Server.Build at h
  simp only [sliceTo_digest, ← hT] at h
  have htr := get_trace env T (scriptURL s) tr
  rcases hg : get env T (scriptURL s) tr with ⟨res, tr1⟩
  rw [hg] at htr h
  simp only at htr
  subst htr
  cases res with
  | error e1 =>
    simp only [Prod.mk.injEq, Result.error.injEq] at h
    obtain ⟨_, rfl⟩ := h
    exact Or.inl ⟨rfl, Or.inl rfl⟩
  | ok x =>
    obtain ⟨ct, script⟩ := x
    simp only at h
    rcases hb : s.buildFontRoutes env T ⟨s.ServeMux, tr ++ [Event.get (scriptURL s)]⟩ with ⟨r2, st2⟩
    rw [hb] at h
    cases r2 with
    | error e2 =>
      simp only [Prod.mk.injEq, Result.error.injEq] at h
      obtain ⟨_, rfl⟩ := h
      rcases buildFontRoutes_error_routes env s T _ _ _ hb with
        ⟨b1, b2⟩ | ⟨k, regs, b1, b2, bl, b3, b4⟩
      · exact Or.inl ⟨b1, Or.inr (by rw [b2]; simp)⟩
      · simp only at b1 b2 b3 b4
        rw [← hroutes] at b1 b2 b3
        exact Or.inr (Or.inl ⟨k, regs, b1, by simpa using b2, bl, by rw [b3]; simp, b4⟩)
    | panic m => simp at h
    | ok css =>
      obtain ⟨_, _, regs2, a2, al, a3, a4, _, _⟩ := buildFontRoutes_ok env s T _ _ _ hb
      simp only at a2 al a3 a4
      rw [← hroutes] at a2 al a4
      have a2 : regs2 = fontRegs env T s
          (tr ++ [Event.get (scriptURL s), Event.allFontFaces s.family]) routes := by
        simpa using a2
      simp only at h
      split at h
      · simp at h
      · rename_i mux3 h3
        split at h
        · simp at h
        · rename_i mux4 h4
          obtain ⟨_, _, r3⟩ := HandleFunc_ok _ _ _ _ h3
          obtain ⟨_, _, r4⟩ := HandleFunc_ok _ _ _ _ h4
          simp only [muxRoutes] at r4
          have hr : mux4.routes = muxRoutes s.ServeMux ++ regs2 ++
              [(Join [s.pfx, hex7 script] ++ ".js", ⟨some "text/javascript", script⟩),
               (Join [s.pfx, hex7 css] ++ ".css", ⟨some "text/css", css⟩)] := by
            rw [r4, r3, a3]
            simp
          split at h
          · simp only [Prod.mk.injEq, Result.error.injEq] at h
            obtain ⟨_, rfl⟩ := h
            refine Or.inr (Or.inr ⟨ct, script, css, regs2, [], rfl, rfl, a2, al, Or.inl ?_, hr⟩)
            simp [a4]
          · split at h
            · simp only [Prod.mk.injEq, Result.error.injEq] at h
              obtain ⟨_, rfl⟩ := h
              refine Or.inr (Or.inr ⟨ct, script, css, regs2,
                buildParams s (Join [s.pfx, hex7 script] ++ ".js")
                  (Join [s.pfx, hex7 css] ++ ".css"), rfl, rfl, a2, al, Or.inr ?_, hr⟩)
              simp [a4]
            · split at h <;> simp at h

end Redoc

namespace Redoc

/-! ## The failing step decides the result -/

theorem get_pair (env : Env) (T : RoundTripper) (url : String) (tr : List Event)
    (x : Except Error (String × Bytes)) (h : (get env T url tr).1 = x) :
    get env T url tr = (x, tr ++ [Event.get url]) :=
  Prod.ext h (get_trace env T url tr)

theorem buildFontRoutes_of_loop_error (env : Env) (s : Server) (T : RoundTripper) (st : State)
    (fonts : List FontFace) (e : Error) (st1 : State)
    (hf : env.AllFontFaces T st.trace s.family = .ok fonts)
    (hloop : fontRoutesLoop env T s ((env.families s.pfx fonts).flatMap Family.routes)
      ⟨st.mux, st.trace ++ [Event.allFontFaces s.family]⟩ = (.error e, st1)) :
    s.buildFontRoutes env T st = (.error e, st1) := by
  have hflat := BuildRoutes_flat env T s (env.families s.pfx fonts)
    (⟨st.mux, st.trace ++ [Event.allFontFaces s.family]⟩, [])
  rw [hloop] at hflat
  unfold Server.buildFontRoutes
  simp only [hf]
  rcases hb : BuildRoutes (fontVisitor env T s) (env.families s.pfx fonts)
    (⟨st.mux, st.trace ++ [Event.allFontFaces s.family]⟩, []) with ⟨r1, st2, css2⟩
  rw [hb] at hflat
  simp only [Prod.mk.injEq] at hflat
  obtain ⟨rfl, rfl⟩ := hflat
  rfl

theorem buildFontRoutes_of_loop_ok (env : Env) (s : Server) (T : RoundTripper) (st : State)
    (fonts : List FontFace) (st1 : State)
    (hf : env.AllFontFaces T st.trace s.family = .ok fonts)
    (hloop : fontRoutesLoop env T s ((env.families s.pfx fonts).flatMap Family.routes)
      ⟨st.mux, st.trace ++ [Event.allFontFaces s.family]⟩ = (.ok (), st1)) :
    ∃ css, s.buildFontRoutes env T st = (.ok css, st1) := by
  have hflat := BuildRoutes_flat env T s (env.families s.pfx fonts)
    (⟨st.mux, st.trace ++ [Event.allFontFaces s.family]⟩, [])
  rw [hloop] at hflat
  unfold Server.buildFontRoutes
  simp only [hf]
  rcases hb : BuildRoutes (fontVisitor env T s) (env.families s.pfx fonts)
    (⟨st.mux, st.trace ++ [Event.allFontFaces s.family]⟩, []) with ⟨r1, st2, css2⟩
  rw [hb] at hflat
  simp only [Prod.mk.injEq] at hflat
  obtain ⟨rfl, rfl⟩ := hflat
  exact ⟨css2, rfl⟩

theorem Build_font_fetch_error (env : Env) (s : Server) (transport : Option RoundTripper)
    (tr : List Event) (x : String × Bytes) (fonts : List FontFace)
    (pre post : List Route) (r : Route) (stk : State) (e : Error)
    (hg : (get env (transportOf env transport) (scriptURL s) tr).1 = .ok x)
    (hf : env.AllFontFaces (transportOf env transport) (tr ++ [Event.get (scriptURL s)]) s.family
      = .ok fonts)
    (hroutes : (env.families s.pfx fonts).flatMap Family.routes = pre ++ r :: post)
    (hpre : fontRoutesLoop env (transportOf env transport) s pre
      ⟨s.ServeMux, tr ++ [Event.get (scriptURL s), Event.allFontFaces s.family]⟩ = (.ok (), stk))
    (hget : (get env (transportOf env transport) r.URL stk.trace).1 = .error e) :
    s.Build env transport tr = (.error e, ⟨stk.mux, stk.trace ++ [Event.get r.URL]⟩) := by
  have hloop := fontRoutesLoop_fails_at env (transportOf env transport) s pre post r _ stk e
    hpre hget
  rw [← hroutes] at hloop
  have hb := buildFontRoutes_of_loop_error env s (transportOf env transport)
    ⟨s.ServeMux, tr ++ [Event.get (scriptURL s)]⟩ fonts e _ hf
    (by simpa using hloop)
  obtain ⟨ct, script⟩ := x
  simp only [Server.Build, get_pair _ _ _ _ _ hg, hb]

theorem Build_parse_error (env : Env) (s : Server) (transport : Option RoundTripper)
    (tr : List Event) (ct : String) (script css : Bytes) (st2 : State) (mux3 mux4 : ServeMux)
    (e : Error)
    (hg : (get env (transportOf env transport) (scriptURL s) tr).1 = .ok (ct, script))
    (hb : s.buildFontRoutes env (transportOf env transport)
      ⟨s.ServeMux, tr ++ [Event.get (scriptURL s)]⟩ = (.ok css, st2))
    (h3 : HandleFunc st2.mux (Join [s.pfx, hex7 script] ++ ".js")
      ⟨some "text/javascript", script⟩ = .ok mux3)
    (h4 : HandleFunc (some mux3) (Join [s.pfx, hex7 css] ++ ".css") ⟨some "text/css", css⟩
      = .ok mux4)
    (hp : env.Parse s.template = some e) :
    s.Build env transport tr = (.error e, ⟨some mux4, st2.trace ++ [Event.parse s.template]⟩) := by
  simp only [Server.Build, get_pair _ _ _ _ _ hg, hb, sliceTo_digest, h3, h4, hp]

theorem Build_execute_error (env : Env) (s : Server) (transport : Option RoundTripper)
    (tr : List Event) (ct : String) (script css : Bytes) (st2 : State) (mux3 mux4 : ServeMux)
    (e : Error)
    (hg : (get env (transportOf env transport) (scriptURL s) tr).1 = .ok (ct, script))
    (hb : s.buildFontRoutes env (transportOf env transport)
      ⟨s.ServeMux, tr ++ [Event.get (scriptURL s)]⟩ = (.ok css, st2))
    (h3 : HandleFunc st2.mux (Join [s.pfx, hex7 script] ++ ".js")
      ⟨some "text/javascript", script⟩ = .ok mux3)
    (h4 : HandleFunc (some mux3) (Join [s.pfx, hex7 css] ++ ".css") ⟨some "text/css", css⟩
      = .ok mux4)
    (hp : env.Parse s.template = none)
    (hx : env.ExecuteTemplate s.template
      (buildParams s (Join [s.pfx, hex7 script] ++ ".js") (Join [s.pfx, hex7 css] ++ ".css"))
        = .error e) :
    s.Build env transport tr = (.error e, ⟨some mux4,
      st2.trace ++ [Event.parse s.template] ++ [Event.execute s.template
        (buildParams s (Join [s.pfx, hex7 script] ++ ".js")
          (Join [s.pfx, hex7 css] ++ ".css"))]⟩) := by
  simp only [Server.Build, get_pair _ _ _ _ _ hg, hb, sliceTo_digest, h3, h4, hp, hx]

/-! ## Font registrations, file by file -/

theorem fontRegs_getElem (env : Env) (T : RoundTripper) (s : Server) (routes : List Route)
    (hist : List Event) (hlen : (fontRegs env T s hist routes).length = routes.length)
    (i : Nat) (r : Route) (hr : routes[i]? = some r) :
    ∃ contentType buf,
      (get env T r.URL (hist ++ (routes.take i).map fetchEvent)).1 = .ok (contentType, buf) ∧
      (fontRegs env T s hist routes)[i]? = some (Join [s.pfx, r.Path], ⟨some contentType, buf⟩) := by
  induction routes generalizing hist i with
  | nil => simp at hr
  | cons r0 rs ih =>
    cases hg : (get env T r0.URL hist).1 with
    | error e => simp [fontRegs, hg] at hlen
    | ok x =>
      obtain ⟨ct, buf⟩ := x
      simp only [fontRegs, hg, List.length_cons, Nat.add_right_cancel_iff] at hlen
      cases i with
      | zero =>
        simp only [List.getElem?_cons_zero, Option.some.injEq] at hr
        subst hr
        exact ⟨ct, buf, by simpa using hg, by simp [fontRegs, hg]⟩
      | succ j =>
        simp only [List.getElem?_cons_succ] at hr
        obtain ⟨ct2, buf2, h1, h2⟩ := ih _ hlen j hr
        refine ⟨ct2, buf2, ?_, ?_⟩
        · simpa [fetchEvent] using h1
        · simp only [fontRegs, hg, List.getElem?_cons_succ]
          exact h2

end Redoc

namespace Redoc

/-! ## `path.Clean` on clean directory paths -/

theorem cleanLoop_nil (rooted : Bool) (fuel : Nat) (out : List Char) (dd : Nat) :
    cleanLoop rooted fuel [] out dd = out := by
  cases fuel <;> rfl

theorem cleanLoop_fuel (rooted : Bool) (f1 f2 : Nat) (rest out : List Char) (dd : Nat)
    (h1 : rest.length ≤ f1) (h2 : rest.length ≤ f2) :
    cleanLoop rooted f1 rest out dd = cleanLoop rooted f2 rest out dd := by
  induction f1 generalizing f2 rest out dd with
  | zero =>
    have : rest = [] := List.length_eq_zero.mp (Nat.le_zero.mp h1)
    subst this
    rw [cleanLoop_nil, cleanLoop_nil]
  | succ n ih =>
    cases rest with
    | nil => rw [cleanLoop_nil, cleanLoop_nil]
    | cons c tl =>
      cases f2 with
      | zero => simp at h2
      | succ m =>
        simp only [List.length_cons, Nat.add_le_add_iff_right] at h1 h2
        have ht : tl.tail.length ≤ tl.length := by simp
        simp only [cleanLoop]
        split
        · exact ih _ _ _ _ h1 h2
        · split
          · exact ih _ _ _ _ h1 h2
          · split
            · split
              · exact ih _ _ _ _ (by omega) (by omega)
              · split
                · exact ih _ _ _ _ (by omega) (by omega)
                · exact ih _ _ _ _ (by omega) (by omega)
            · rename_i hc _ _
              have hd2 : (List.dropWhile (fun x => decide (x ≠ '/')) (c :: tl)).length
                  ≤ tl.length := by
                rw [List.dropWhile_cons_of_pos (by simpa using hc)]
                exact (List.dropWhile_sublist _).length_le
              exact ih _ _ _ _ (by omega) (by omega)

theorem cleanLoop_slash (rooted : Bool) (fuel : Nat) (rest out : List Char) (dd : Nat) :
    cleanLoop rooted (fuel + 1) ('/' :: rest) out dd = cleanLoop rooted fuel rest out dd := by
  simp [cleanLoop]

theorem takeWhile_elem (seg rest : List Char) (hseg : '/' ∉ seg)
    (hrest : rest = [] ∨ rest.head? = some '/') :
    (seg ++ rest).takeWhile (fun x => decide (x ≠ '/')) = seg ∧
      (seg ++ rest).dropWhile (fun x => decide (x ≠ '/')) = rest := by
  induction seg with
  | nil =>
    rcases hrest with rfl | h
    · simp
    · cases rest with
      | nil => simp
      | cons a as =>
        simp only [List.head?_cons, Option.some.injEq] at h
        subst h
        simp
  | cons a as ih =>
    have ha : a ≠ '/' := fun hh => hseg (by simp [hh])
    have has : '/' ∉ as := fun hh => hseg (List.mem_cons_of_mem _ hh)
    obtain ⟨i1, i2⟩ := ih has
    constructor
    · rw [List.cons_append, List.takeWhile_cons_of_pos (by simpa using ha), i1]
    · rw [List.cons_append, List.dropWhile_cons_of_pos (by simpa using ha), i2]

theorem cleanLoop_real (rooted : Bool) (fuel : Nat) (seg rest out : List Char) (dd : Nat)
    (hseg : RealElem seg) (hrest : rest = [] ∨ rest.head? = some '/') :
    cleanLoop rooted (fuel + 1) (seg ++ rest) out dd =
      cleanLoop rooted fuel rest (cleanAddSep rooted out ++ seg) dd := by
  obtain ⟨hne, hslash, hdot, hdotdot⟩ := hseg
  obtain ⟨t1, t2⟩ := takeWhile_elem seg rest hslash hrest
  cases seg with
  | nil => exact absurd rfl hne
  | cons c tl =>
    have hc : c ≠ '/' := fun hh => hslash (by simp [hh])
    have htl : '/' ∉ tl := fun hh => hslash (List.mem_cons_of_mem _ hh)
    have c2 : ¬ (c = '.' ∧ (tl ++ rest = [] ∨ (tl ++ rest).head? = some '/')) := by
      rintro ⟨rfl, h⟩
      cases tl with
      | nil => exact hdot rfl
      | cons d tl2 =>
        rcases h with h | h
        · simp at h
        · simp only [List.cons_append, List.head?_cons, Option.some.injEq] at h
          exact htl (by simp [h])
    have c3 : ¬ (c = '.' ∧ (tl ++ rest).head? = some '.' ∧
        ((tl ++ rest).tail = [] ∨ (tl ++ rest).tail.head? = some '/')) := by
      rintro ⟨rfl, h1, h2⟩
      cases tl with
      | nil => exact hdot rfl
      | cons d tl2 =>
        simp only [List.cons_append, List.head?_cons, Option.some.injEq] at h1
        subst h1
        cases tl2 with
        | nil => exact hdotdot rfl
        | cons e tl3 =>
          rcases h2 with h2 | h2
          · simp at h2
          · simp only [List.cons_append, List.tail_cons, List.head?_cons,
              Option.some.injEq] at h2
            exact htl (by simp [h2])
    rw [List.cons_append] at t1 t2 ⊢
    simp only [cleanLoop, hc, if_false, c2, c3]
    rw [t1, t2]

theorem cleanLoop_segs (rooted : Bool) (segs : List (List Char)) (fuel : Nat)
    (rest out : List Char) (dd : Nat) (hsegs : ∀ seg ∈ segs, RealElem seg)
    (hfuel : (segs.flatMap (fun seg => seg ++ ['/']) ++ rest).length ≤ fuel) :
    cleanLoop rooted fuel (segs.flatMap (fun seg => seg ++ ['/']) ++ rest) out dd =
      cleanLoop rooted rest.length rest (cleanPush rooted out segs) dd := by
  induction segs generalizing fuel out with
  | nil =>
    simp only [List.flatMap_nil, List.nil_append] at hfuel ⊢
    exact cleanLoop_fuel rooted _ _ _ _ _ hfuel (Nat.le_refl _)
  | cons seg segs ih =>
    have hseg := hsegs seg (by simp)
    have hne : seg ≠ [] := hseg.1
    have hlen : 1 ≤ seg.length := List.length_pos.mpr hne
    have e : (seg :: segs).flatMap (fun seg => seg ++ ['/']) ++ rest =
        seg ++ ('/' :: (segs.flatMap (fun seg => seg ++ ['/']) ++ rest)) := by simp
    rw [e] at hfuel ⊢
    simp only [List.length_append, List.length_cons] at hfuel
    obtain ⟨f, rfl⟩ : ∃ f, fuel = f + 2 := ⟨fuel - 2, by omega⟩
    rw [cleanLoop_real rooted (f + 1) seg _ out dd hseg (Or.inr (by simp)), cleanLoop_slash]
    rw [ih f _ (fun x hx => hsegs x (List.mem_cons_of_mem _ hx))
      (by simp only [List.length_append]; omega)]
    rfl

theorem cleanAddSep_push (rooted : Bool) (segs : List (List Char)) (out : List Char)
    (hsegs : ∀ seg ∈ segs, RealElem seg) (hout : rooted = true → 1 ≤ out.length) :
    cleanAddSep rooted (cleanPush rooted out segs) =
      cleanAddSep rooted out ++ segs.flatMap (fun seg => seg ++ ['/']) := by
  induction segs generalizing out with
  | nil => simp [cleanPush]
  | cons seg segs ih =>
    have hseg := hsegs seg (by simp)
    have hlen : 1 ≤ seg.length := List.length_pos.mpr hseg.1
    have hal : out.length ≤ (cleanAddSep rooted out).length := by
      unfold cleanAddSep
      split <;> simp
    have hstep : cleanAddSep rooted (cleanAddSep rooted out ++ seg) =
        cleanAddSep rooted out ++ seg ++ ['/'] := by
      have hl : (cleanAddSep rooted out ++ seg).length =
          (cleanAddSep rooted out).length + seg.length := List.length_append _ _
      cases rooted with
      | true =>
        have := hout rfl
        rw [cleanAddSep.eq_1 true (cleanAddSep true out ++ seg)]
        rw [if_pos (Or.inl ⟨rfl, by omega⟩)]
      | false =>
        rw [cleanAddSep.eq_1 false (cleanAddSep false out ++ seg)]
        rw [if_pos (Or.inr ⟨rfl, by omega⟩)]
    simp only [cleanPush, List.flatMap_cons]
    rw [ih _ (fun x hx => hsegs x (List.mem_cons_of_mem _ hx))
      (fun _ => by rw [List.length_append]; omega), hstep]
    simp

end Redoc

namespace Redoc

theorem cleanLoop_elem (rooted : Bool) (fuel : Nat) (hd out : List Char) (dd : Nat)
    (hh : RealElem hd) (hfuel : hd.length ≤ fuel) :
    cleanLoop rooted fuel hd out dd = cleanAddSep rooted out ++ hd := by
  have hlen : 1 ≤ hd.length := List.length_pos.mpr hh.1
  obtain ⟨f, rfl⟩ : ∃ f, fuel = f + 1 := ⟨fuel - 1, by omega⟩
  have := cleanLoop_real rooted f hd [] out dd hh (Or.inl rfl)
  rw [List.append_nil, cleanLoop_nil] at this
  exact this

theorem cleanLoop_dir (rooted : Bool) (segs : List (List Char)) (fuel : Nat)
    (sep hd out : List Char) (dd : Nat)
    (hsegs : ∀ seg ∈ segs, RealElem seg) (hh : RealElem hd)
    (hout : rooted = true → 1 ≤ out.length) (hsep : sep = [] ∨ sep = ['/'])
    (hfuel : (segs.flatMap (fun seg => seg ++ ['/']) ++ (sep ++ hd)).length ≤ fuel) :
    cleanLoop rooted fuel (segs.flatMap (fun seg => seg ++ ['/']) ++ (sep ++ hd)) out dd =
      cleanAddSep rooted out ++ segs.flatMap (fun seg => seg ++ ['/']) ++ hd := by
  rw [cleanLoop_segs rooted segs fuel _ out dd hsegs hfuel]
  rw [← cleanAddSep_push rooted segs out hsegs hout]
  rcases hsep with rfl | rfl
  · exact cleanLoop_elem rooted _ hd _ dd hh (by simp)
  · rw [List.singleton_append, List.length_cons, cleanLoop_slash]
    exact cleanLoop_elem rooted _ hd _ dd hh (Nat.le_refl _)

theorem cleanChars_rooted (segs : List (List Char)) (hd : List Char)
    (hsegs : ∀ seg ∈ segs, RealElem seg) (hh : RealElem hd) :
    cleanChars ('/' :: (segs.flatMap (fun seg => seg ++ ['/']) ++ ('/' :: hd))) =
      '/' :: (segs.flatMap (fun seg => seg ++ ['/']) ++ hd) := by
  have key := cleanLoop_dir true segs
    ('/' :: (segs.flatMap (fun seg => seg ++ ['/']) ++ ('/' :: hd))).length ['/'] hd ['/'] 1
    hsegs hh (fun _ => by simp) (Or.inr rfl) (by simp)
  simp only [List.singleton_append] at key
  simp only [cleanChars, List.head?_cons, List.tail_cons, if_true, key, cleanAddSep]
  simp

theorem cleanChars_unrooted (segs : List (List Char)) (sep hd : List Char)
    (hsegs : ∀ seg ∈ segs, RealElem seg) (hh : RealElem hd)
    (hsep : (segs = [] ∧ sep = []) ∨ (segs ≠ [] ∧ sep = ['/'])) :
    cleanChars (segs.flatMap (fun seg => seg ++ ['/']) ++ (sep ++ hd)) =
      segs.flatMap (fun seg => seg ++ ['/']) ++ hd := by
  have hs : sep = [] ∨ sep = ['/'] := by
    rcases hsep with ⟨_, h⟩ | ⟨_, h⟩
    · exact Or.inl h
    · exact Or.inr h
  have key := cleanLoop_dir false segs
    (segs.flatMap (fun seg => seg ++ ['/']) ++ (sep ++ hd)).length sep hd [] 0
    hsegs hh (fun h => by cases h) hs (Nat.le_refl _)
  have hhd : hd ≠ [] := hh.1
  have hne : segs.flatMap (fun seg => seg ++ ['/']) ++ (sep ++ hd) ≠ [] := by
    simp [hhd]
  have hhead : (segs.flatMap (fun seg => seg ++ ['/']) ++ (sep ++ hd)).head? ≠ some '/' := by
    rcases hsep with ⟨rfl, rfl⟩ | ⟨hn, rfl⟩
    · cases hd with
      | nil => exact absurd rfl hhd
      | cons c tl =>
        simp only [List.flatMap_nil, List.nil_append, List.head?_cons, ne_eq,
          Option.some.injEq]
        intro hc
        exact hh.2.1 (by simp [hc])
    · cases segs with
      | nil => exact absurd rfl hn
      | cons seg segs2 =>
        have hseg := hsegs seg (by simp)
        cases seg with
        | nil => exact absurd rfl hseg.1
        | cons c tl =>
          simp only [List.flatMap_cons, List.cons_append, List.head?_cons, ne_eq,
            Option.some.injEq]
          intro hc
          exact hseg.2.1 (by simp [hc])
  have hout : cleanAddSep false [] = [] := by simp [cleanAddSep]
  rw [hout, List.nil_append] at key
  simp only [cleanChars, hne, hhead, if_false, key]
  simp [hhd]

theorem mk_eq_empty (l : List Char) : String.mk l = "" ↔ l = [] := by
  constructor
  · intro h
    exact congrArg String.data h
  · intro h
    rw [h]

theorem joinBuf_two (p hd : List Char) (hhd : hd ≠ []) :
    joinBuf [] [String.mk p, String.mk hd] = if p = [] then hd else p ++ '/' :: hd := by
  have h2 : ¬ String.mk hd = "" := fun h => hhd ((mk_eq_empty hd).mp h)
  by_cases hp : p = []
  · subst hp
    have h1 : String.mk [] = "" := rfl
    simp only [joinBuf, List.length_nil, Nat.lt_irrefl, gt_iff_lt, false_or, ne_eq, h1,
      not_true_eq_false, if_false, h2, not_false_eq_true, if_true, List.nil_append]
    rfl
  · have h1 : ¬ String.mk p = "" := fun h => hp ((mk_eq_empty p).mp h)
    have h3 : 0 < p.length := List.length_pos.mpr hp
    have e1 : (String.mk p).toList = p := rfl
    have e2 : (String.mk hd).toList = hd := rfl
    simp only [joinBuf, List.length_nil, Nat.lt_irrefl, gt_iff_lt, false_or, ne_eq, h1,
      not_false_eq_true, if_true, if_false, List.nil_append, e1, e2, h3, true_or, hp]
    simp

theorem Join_dirPath (rooted : Bool) (segs : List (List Char)) (h : String)
    (hsegs : ∀ seg ∈ segs, RealElem seg) (hh : RealElem h.toList) :
    Join [dirPath rooted segs, h] = dirPath rooted segs ++ h := by
  obtain ⟨hd⟩ := h
  have hh2 : RealElem hd := hh
  have hhd : hd ≠ [] := hh2.1
  have hmk : ∀ a b : List Char, (String.mk a) ++ (String.mk b) = String.mk (a ++ b) :=
    fun _ _ => rfl
  have hlen : ¬ ([dirPath rooted segs, String.mk hd].map String.length).sum = 0 := by
    have h1 : (String.mk hd).length = hd.length := rfl
    have h2 : 1 ≤ hd.length := List.length_pos.mpr hhd
    simp only [List.map_cons, List.map_nil, List.sum_cons, List.sum_nil, h1]
    omega
  rw [Join, if_neg hlen]
  cases rooted with
  | true =>
    have hp : dirPath true segs =
        String.mk ('/' :: segs.flatMap (fun seg => seg ++ ['/'])) := by
      simp [dirPath]
    rw [hp, joinBuf_two _ hd hhd, if_neg (by simp), List.cons_append,
      cleanChars_rooted segs hd hsegs hh2, hmk]
    rfl
  | false =>
    have hp : dirPath false segs = String.mk (segs.flatMap (fun seg => seg ++ ['/'])) := by
      simp [dirPath]
    rw [hp, joinBuf_two _ hd hhd, hmk]
    cases segs with
    | nil =>
      have := cleanChars_unrooted [] [] hd hsegs hh2 (Or.inl ⟨rfl, rfl⟩)
      simp only [List.flatMap_nil, List.nil_append] at this
      simp only [List.flatMap_nil, if_true, this, List.nil_append]
    | cons seg segs2 =>
      have hseg := hsegs seg (by simp)
      have hne : (seg :: segs2).flatMap (fun seg => seg ++ ['/']) ≠ [] := by
        simp [hseg.1]
      have := cleanChars_unrooted (seg :: segs2) ['/'] hd hsegs hh2 (Or.inr ⟨by simp, rfl⟩)
      rw [if_neg hne]
      rw [List.singleton_append] at this
      rw [this]

theorem hex7_real (b : Bytes) : RealElem (hex7 b).toList := by
  have hl : (hex7 b).toList.length = 7 := hex7_length b
  have hc := hex7_chars b
  refine ⟨?_, ?_, ?_, ?_⟩
  · intro h; rw [h] at hl; simp at hl
  · intro h; exact absurd (hc _ h) (by decide)
  · intro h; rw [h] at hl; simp at hl
  · intro h; rw [h] at hl; simp at hl

end Redoc

namespace Redoc

/-! ## Helper facts for the claims -/

theorem js_ne_css (x y : String) : x ++ ".js" ≠ y ++ ".css" := by
  intro h
  have h2 := congrArg (fun t => t.data.reverse) h
  simp [String.data_append] at h2

theorem FailedRun.not_allSucceeded (env : Env) (T : RoundTripper) (hist plan : List Event)
    (e : Error) (added : List Event) (hall : AllSucceeded env T hist plan)
    (hr : FailedRun env T hist plan e added) : False := by
  obtain ⟨done, last, hadd, ⟨rest, hrest⟩, _, hlast⟩ := hr
  rw [← hrest, hadd, List.append_assoc, AllSucceeded_append] at hall
  have h1 : stepError env T (hist ++ done) last = none := hall.2.1
  rw [h1] at hlast
  cases hlast

theorem buildFontRoutes_no_error (env : Env) (s : Server) (T : RoundTripper) (st : State)
    (fonts : List FontFace)
    (hf : env.AllFontFaces T st.trace s.family = .ok fonts)
    (hfetch : AllSucceeded env T (st.trace ++ [Event.allFontFaces s.family])
      (((env.families s.pfx fonts).flatMap Family.routes).map fetchEvent))
    (e : Error) (st1 : State) : s.buildFontRoutes env T st ≠ (.error e, st1) := by
  intro h
  obtain ⟨added, _, hrun⟩ := buildFontRoutes_error env s T _ _ _ h
  have hr : resolvedFamilies env T s st.trace = env.families s.pfx fonts := by
    simp [resolvedFamilies, hf]
  rw [hr] at hrun
  have hall : AllSucceeded env T st.trace (Event.allFontFaces s.family ::
      ((env.families s.pfx fonts).flatMap Family.routes).map fetchEvent) :=
    ⟨by simp [stepError, hf], hfetch⟩
  exact FailedRun.not_allSucceeded env T _ _ e added hall hrun

theorem buildFontRoutes_total (env : Env) (s : Server) (T : RoundTripper) (st : State)
    (fonts : List FontFace) (m : ServeMux)
    (hf : env.AllFontFaces T st.trace s.family = .ok fonts)
    (hfetch : AllSucceeded env T (st.trace ++ [Event.allFontFaces s.family])
      (((env.families s.pfx fonts).flatMap Family.routes).map fetchEvent))
    (hmux : st.mux = some m)
    (hne : ∀ r ∈ (env.families s.pfx fonts).flatMap Family.routes, Join [s.pfx, r.Path] ≠ "")
    (hnd : (((env.families s.pfx fonts).flatMap Family.routes).map
      (fun r => Join [s.pfx, r.Path])).Nodup)
    (hfresh : ∀ r ∈ (env.families s.pfx fonts).flatMap Family.routes,
      Join [s.pfx, r.Path] ∉ m.routes.map Prod.fst) :
    (s.buildFontRoutes env T st).1 = .ok ((env.families s.pfx fonts).flatMap Family.css) := by
  obtain ⟨st1, hloop⟩ := fontRoutesLoop_total env T s _
    ⟨st.mux, st.trace ++ [Event.allFontFaces s.family]⟩ m hmux hfetch hne hnd hfresh
  obtain ⟨css, hb⟩ := buildFontRoutes_of_loop_ok env s T st fonts st1 hf hloop
  obtain ⟨_, a1, _⟩ := buildFontRoutes_ok env s T _ _ _ hb
  have hr : resolvedFamilies env T s st.trace = env.families s.pfx fonts := by
    simp [resolvedFamilies, hf]
  rw [hb, a1, hr]

/-- Cases of `http.Client.Do`: a response with status 404 is returned as it
is, a transport error comes back wrapped in a `*url.Error`, and a URL that
redirects to itself ends in an error after ten requests. -/
theorem clientDo_test_vectors :
    (match clientDo demoEnv demoTransport [] "https://fonts.example/missing.woff2" with
      | .ok res => res.status
      | .error _ => 0) = 404 ∧
    (match clientDo demoEnv demoTransport [] "https://fonts.example/ghost.woff2" with
      | .ok _ => none
      | .error e => some e)
        = some (.url "Get" "https://fonts.example/ghost.woff2" (.msg "connection refused")) ∧
    (match clientDo demoEnv demoTransport [] "https://fonts.example/loop.woff2" with
      | .ok _ => none
      | .error e => some e)
        = some (.url "Get" "https://fonts.example/loop.woff2"
            (.msg "stopped after 10 redirects")) := by
  decide

set_option maxRecDepth 100000 in
/-- Test vectors of RFC 1321 for the digest. -/
theorem md5_test_vectors :
    hexBytes (md5Sum []) = "d41d8cd98f00b204e9800998ecf8427e" ∧
    hexBytes (md5Sum (ascii "abc")) = "900150983cd24fb0d6963f7d28e17f72" ∧
    hexBytes (md5Sum (ascii "message digest")) = "f96b697d7cb7938d525a2f31aaf161d0" := by
  decide

set_option maxRecDepth 100000 in
/-- Cases of the test table of Go for `path.Clean` and `path.Join`. -/
theorem path_test_vectors :
    Clean "" = "." ∧ Clean "abc//def//ghi" = "abc/def/ghi" ∧ Clean "abc/./../def" = "def" ∧
    Clean "abc/def/../../.." = ".." ∧ Clean "/../abc" = "/abc" ∧
    Clean "abc/../../././../def" = "../../def" ∧ Clean "/abc/def/../../.." = "/" ∧
    Clean "abc/def/../ghi/../jkl" = "abc/jkl" ∧ Clean "abc/" = "abc" ∧
    Join ["a", "b"] = "a/b" ∧ Join ["a", ""] = "a" ∧ Join ["", "b"] = "b" ∧
    Join ["/", "a"] = "/a" ∧ Join ["a/", "b"] = "a/b" ∧ Join ["", ""] = "" := by
  decide

/-! ## The claims -/

/-- C10: for every payload the hexadecimal rendering of its MD5 digest has 32
characters, so the slice `[:7]` that `Build` takes is defined (the slice does
not panic) and holds exactly seven characters, each of `0-9a-f`. -/
theorem digest_slice_in_bounds (b : Bytes) :
    (hexBytes (md5Sum b)).length = 32 ∧
      ∃ h, sliceTo (hexBytes (md5Sum b)) 7 = some h ∧ h.length = 7 ∧
        ∀ c ∈ h.toList, c ∈ "0123456789abcdef".toList := by
  refine ⟨?_, hex7 b, sliceTo_digest b, hex7_length b, hex7_chars b⟩
  rw [hexBytes_length, md5Sum_length]

set_option maxRecDepth 100000 in
/-- C9, refuted as stated: the transport answers a font file URL with status
404; `get` returns the content type and body of that response with a nil
error, and `Build` of a server using that font file succeeds. -/
theorem get_accepts_status_404 :
    (match demoTransport [] [] "https://fonts.example/missing.woff2" with
      | .ok res => res.status
      | .error _ => 0) = 404 ∧
    (get demoEnv demoTransport "https://fonts.example/missing.woff2" []).1
      = .ok ("text/plain", ascii "not found") ∧
    ((demoServer [WithFamily "Missing"]).Build demoEnv none []).1 = .ok () :=
  ⟨by decide, by rfl, by decide⟩

/-- C9, amended: `get` does not look at the status of the response that
`http.Client.Do` returns.  When the request can be built, the transport answers
it with a response that `Do` does not follow (a status other than 301, 302,
303, 307 and 308, for instance 404 or 500, or no `Location` header) and the
body can be read, `get` returns the content type and the body of that response
with a nil error.  `get` returns an error `e` exactly when building the request
fails with `e`, `Do` returns the error `e`, or reading the body of the response
of `Do` fails with `e`; an error of the transport comes back wrapped in a
`*url.Error`. -/
theorem get_ignores_status (env : Env) (T : RoundTripper) (url : String) (tr : List Event) :
    (∀ res buf, env.NewRequest url = none → T tr [] url = .ok res →
      (shouldRedirect res.status = false ∨ res.location = "") → res.body = .ok buf →
      (get env T url tr).1 = .ok (res.contentType, buf)) ∧
    (∀ e, (get env T url tr).1 = .error e ↔
      (env.NewRequest url = some e ∨
        (env.NewRequest url = none ∧
          (clientDo env T tr url = .error e ∨
            ∃ res, clientDo env T tr url = .ok res ∧ res.body = .error e)))) ∧
    (∀ e, env.NewRequest url = none → T tr [] url = .error e →
      (get env T url tr).1 = .error (.url "Get" (env.redact url) e)) := by
  refine ⟨?_, fun e => get_error_iff env T url tr e, ?_⟩
  · intro res buf h1 h2 h3 h4
    exact (get_ok_iff env T url tr _ _).mpr
      ⟨h1, res, clientDo_final env T url tr res h2 h3, h4, rfl⟩
  · intro e h1 h2
    exact (get_error_iff env T url tr _).mpr
      (Or.inr ⟨h1, Or.inl (clientDo_transport_error env T url tr e h2)⟩)

/-- Witness for C9 (amended): the response with status 404 is returned by
`get` as it is. -/
theorem get_ignores_status_witness :
    demoEnv.NewRequest "https://fonts.example/missing.woff2" = none ∧
    shouldRedirect 404 = false ∧
    (get demoEnv demoTransport "https://fonts.example/missing.woff2" []).1
      = .ok ("text/plain", ascii "not found") :=
  ⟨rfl, rfl,
    (get_ignores_status demoEnv demoTransport "https://fonts.example/missing.woff2" []).1
      ⟨404, "", "text/plain", .ok (ascii "not found")⟩ (ascii "not found") rfl rfl
      (Or.inl rfl) rfl⟩

/-- C3: the params `Build` hands to the template have `spec`, `script` and
`stylesheet` set to the spec path of the server and to the derived paths of
the script and of the stylesheet, whatever the server params hold for these
keys; every other key has exactly the value of the server params, and a key
the server params do not hold is absent. -/
theorem Build_params_reserved_keys (env : Env) (s : Server) (transport : Option RoundTripper)
    (tr : List Event) (r : Result Unit) (st1 : State) (tpl : Bytes) (p : Params)
    (h : s.Build env transport tr = (r, st1))
    (hmem : Event.execute tpl p ∈ st1.trace.drop tr.length) :
    ∃ ct script css,
      (get env (transportOf env transport) (scriptURL s) tr).1 = .ok (ct, script) ∧
      (s.buildFontRoutes env (transportOf env transport)
        ⟨s.ServeMux, tr ++ [Event.get (scriptURL s)]⟩).1 = .ok css ∧
      ∀ k, mapGet p k =
        if k = "spec" then some (Value.str s.spec)
        else if k = "script" then some (Value.str (Join [s.pfx, hex7 script] ++ ".js"))
        else if k = "stylesheet" then some (Value.str (Join [s.pfx, hex7 css] ++ ".css"))
        else mapGet s.params k := by
  obtain ⟨ct, script, css, h1, h2, _, h4⟩ := Build_execute env s transport tr r st1 tpl p h hmem
  refine ⟨ct, script, css, h1, h2, ?_⟩
  intro k
  rw [h4, mapGet_buildParams]
  rfl

set_option maxRecDepth 100000 in
/-- Witness for C3: a server made with `WithParam("spec", "overridden")`
renders its template with `spec` set to its spec path. -/
theorem Build_params_reserved_keys_witness :
    mapGet (demoServer [WithParam "spec" (.str "overridden")]).params "spec"
      = some (.str "overridden") ∧
    mapGet [("spec", Value.str "/spec.json"), ("script", .str "/_/bc283a6.js"),
      ("stylesheet", .str "/_/24648db.css"), ("title", .str "ReDoc")] "spec"
      = some (.str "/spec.json") ∧
    ∃ ct script css,
      (get demoEnv (transportOf demoEnv none)
        (scriptURL (demoServer [WithParam "spec" (.str "overridden")])) []).1
          = .ok (ct, script) ∧
      ((demoServer [WithParam "spec" (.str "overridden")]).buildFontRoutes demoEnv
        (transportOf demoEnv none)
        ⟨(demoServer [WithParam "spec" (.str "overridden")]).ServeMux,
          [] ++ [Event.get (scriptURL (demoServer [WithParam "spec" (.str "overridden")]))]⟩).1
          = .ok css ∧
      ∀ k, mapGet [("spec", Value.str "/spec.json"), ("script", .str "/_/bc283a6.js"),
          ("stylesheet", .str "/_/24648db.css"), ("title", .str "ReDoc")] k =
        if k = "spec" then
          some (Value.str (demoServer [WithParam "spec" (.str "overridden")]).spec)
        else if k = "script" then
          some (Value.str
            (Join [(demoServer [WithParam "spec" (.str "overridden")]).pfx, hex7 script] ++ ".js"))
        else if k = "stylesheet" then
          some (Value.str
            (Join [(demoServer [WithParam "spec" (.str "overridden")]).pfx, hex7 css] ++ ".css"))
        else mapGet (demoServer [WithParam "spec" (.str "overridden")]).params k :=
  ⟨by decide, by decide,
    Build_params_reserved_keys demoEnv (demoServer [WithParam "spec" (.str "overridden")]) none []
      _ _ (ascii "<html>") _ rfl (by decide)⟩

end Redoc

namespace Redoc

/-- C4: a build that returns nil has registered, after the font routes, the
fetched script `b` at `path.Join(prefix, h) + ".js"` and the aggregated
stylesheet `c` at `path.Join(prefix, h2) + ".css"`, `h` and `h2` being the
first seven characters of the lowercase hexadecimal MD5 digests of `b` and of
`c`; each path is a function of the prefix and of the bytes of its own asset.
With the prefix `/_/` and the digest prefixes `abc1234` and `def5678` the
paths are `/_/abc1234.js` and `/_/def5678.css`. -/
theorem Build_derived_paths (env : Env) (s : Server) (transport : Option RoundTripper)
    (tr : List Event) (st1 : State) (h : s.Build env transport tr = (.ok (), st1)) :
    (∃ ct b c regs indexBuf,
      (get env (transportOf env transport) (scriptURL s) tr).1 = .ok (ct, b) ∧
      (s.buildFontRoutes env (transportOf env transport)
        ⟨s.ServeMux, tr ++ [Event.get (scriptURL s)]⟩).1 = .ok c ∧
      muxRoutes st1.mux = muxRoutes s.ServeMux ++ regs ++
        [(Join [s.pfx, String.mk ((hexBytes (md5Sum b)).toList.take 7)] ++ ".js",
            ⟨some "text/javascript", b⟩),
         (Join [s.pfx, String.mk ((hexBytes (md5Sum c)).toList.take 7)] ++ ".css",
            ⟨some "text/css", c⟩),
         (s.index, ⟨none, indexBuf⟩)]) ∧
    Join ["/_/", "abc1234"] ++ ".js" = "/_/abc1234.js" ∧
    Join ["/_/", "def5678"] ++ ".css" = "/_/def5678.css" := by
  obtain ⟨ct, b, regs, indexBuf, h1, h2, _, _, _, h5, _, _⟩ :=
    Build_ok env s transport tr st1 _ _ _ rfl rfl rfl h
  exact ⟨⟨ct, b, _, regs, indexBuf, h1, h2, h5⟩, by decide, by decide⟩

set_option maxRecDepth 100000 in
/-- Witness for C4: the build of the default server succeeds. -/
theorem Build_derived_paths_witness :
    ((demoServer []).Build demoEnv none []).1 = .ok () ∧
    ((∃ ct b c regs indexBuf,
      (get demoEnv (transportOf demoEnv none) (scriptURL (demoServer [])) []).1 = .ok (ct, b) ∧
      ((demoServer []).buildFontRoutes demoEnv (transportOf demoEnv none)
        ⟨(demoServer []).ServeMux, [] ++ [Event.get (scriptURL (demoServer []))]⟩).1 = .ok c ∧
      muxRoutes ((demoServer []).Build demoEnv none []).2.mux =
        muxRoutes (demoServer []).ServeMux ++ regs ++
        [(Join [(demoServer []).pfx, String.mk ((hexBytes (md5Sum b)).toList.take 7)] ++ ".js",
            ⟨some "text/javascript", b⟩),
         (Join [(demoServer []).pfx, String.mk ((hexBytes (md5Sum c)).toList.take 7)] ++ ".css",
            ⟨some "text/css", c⟩),
         ((demoServer []).index, ⟨none, indexBuf⟩)]) ∧
    Join ["/_/", "abc1234"] ++ ".js" = "/_/abc1234.js" ∧
    Join ["/_/", "def5678"] ++ ".css" = "/_/def5678.css") :=
  ⟨by decide, Build_derived_paths demoEnv (demoServer []) none [] _ (Prod.ext (by decide) rfl)⟩

/-- C6: a build that returns nil on an empty route table has registered
exactly K+3 routes, K being the number of font files the font collaborator
yields, and their paths are pairwise distinct (the mux refuses a path that is
already registered); the script path and the stylesheet path differ whatever
the bytes of script and stylesheet are. -/
theorem Build_paths_distinct (env : Env) (s : Server) (transport : Option RoundTripper)
    (tr : List Event) (st1 : State) (hempty : muxRoutes s.ServeMux = [])
    (h : s.Build env transport tr = (.ok (), st1)) :
    (muxRoutes st1.mux).length =
      ((resolvedFamilies env (transportOf env transport) s
        (tr ++ [Event.get (scriptURL s)])).flatMap Family.routes).length + 3 ∧
    ((muxRoutes st1.mux).map Prod.fst).Nodup ∧
    ∀ script css : Bytes,
      Join [s.pfx, hex7 script] ++ ".js" ≠ Join [s.pfx, hex7 css] ++ ".css" := by
  obtain ⟨ct, b, regs, indexBuf, _, _, _, hl, _, h5, _, h7⟩ :=
    Build_ok env s transport tr st1 _ _ _ rfl rfl rfl h
  refine ⟨?_, h7 (by rw [hempty]; exact List.nodup_nil), fun _ _ => js_ne_css _ _⟩
  rw [h5, hempty]
  simp [hl]

set_option maxRecDepth 100000 in
/-- Witness for C6: the default server with its new mux. -/
theorem Build_paths_distinct_witness :
    muxRoutes (demoServer []).ServeMux = [] ∧
    ((demoServer []).Build demoEnv none []).1 = .ok () ∧
    ((muxRoutes ((demoServer []).Build demoEnv none []).2.mux).length =
      ((resolvedFamilies demoEnv (transportOf demoEnv none) (demoServer [])
        ([] ++ [Event.get (scriptURL (demoServer []))])).flatMap Family.routes).length + 3 ∧
    ((muxRoutes ((demoServer []).Build demoEnv none []).2.mux).map Prod.fst).Nodup ∧
    ∀ script css : Bytes,
      Join [(demoServer []).pfx, hex7 script] ++ ".js"
        ≠ Join [(demoServer []).pfx, hex7 css] ++ ".css") :=
  ⟨by decide, by decide,
    Build_paths_distinct demoEnv (demoServer []) none [] _ (by decide)
      (Prod.ext (by decide) rfl)⟩

set_option maxRecDepth 100000 in
/-- C7, refuted as stated: the mux already holds the path of the first font
file.  The font collaborator resolves the fonts and every fetch of a font file
succeeds, yet `buildFontRoutes` does not return the concatenation: the
registration of the first font route panics, and so does `Build`. -/
theorem stylesheet_registration_panics :
    muxRoutes (demoServer [WithServeMux (some ⟨[("/_/Montserrat.woff2", ⟨none, []⟩)]⟩)]).ServeMux
      = [("/_/Montserrat.woff2", ⟨none, []⟩)] ∧
    AllSucceeded demoEnv demoTransport [Event.allFontFaces "Montserrat:300,400,700|Roboto:300,400,700"]
      [Event.get "https://fonts.example/montserrat.woff2",
       Event.get "https://fonts.example/roboto.woff2"] ∧
    ((demoServer [WithServeMux (some ⟨[("/_/Montserrat.woff2", ⟨none, []⟩)]⟩)]).buildFontRoutes
      demoEnv demoTransport
      ⟨(demoServer [WithServeMux (some ⟨[("/_/Montserrat.woff2", ⟨none, []⟩)]⟩)]).ServeMux,
        []⟩).1 = .panic (.conflict "/_/Montserrat.woff2") ∧
    ((demoServer [WithServeMux (some ⟨[("/_/Montserrat.woff2", ⟨none, []⟩)]⟩)]).Build
      demoEnv none []).1 = .panic (.conflict "/_/Montserrat.woff2") :=
  ⟨by decide, ⟨by decide, by decide, trivial⟩, by decide, by decide⟩

/-- C7, amended: when the font collaborator resolves the fonts and every fetch
of a font file succeeds in its turn, `buildFontRoutes` either panics in the
registration of a font route or returns the CSS texts of the families
concatenated in the order of the collaborator, nothing else; the bytes and
content types of the font files do not enter.  It returns the concatenation
whenever the mux accepts the registration of every font route.  The
concatenation is what a `Build` that returns nil hashes for the stylesheet path
and serves there as `text/css`. -/
theorem stylesheet_is_concatenation (env : Env) (s : Server) (T : RoundTripper) (st : State)
    (fonts : List FontFace)
    (hf : env.AllFontFaces T st.trace s.family = .ok fonts)
    (hfetch : AllSucceeded env T (st.trace ++ [Event.allFontFaces s.family])
      (((env.families s.pfx fonts).flatMap Family.routes).map fetchEvent)) :
    ((∃ p, (s.buildFontRoutes env T st).1 = .panic p) ∨
      (s.buildFontRoutes env T st).1 = .ok ((env.families s.pfx fonts).flatMap Family.css)) ∧
    (∀ st1,
      fontRoutesLoop env T s ((env.families s.pfx fonts).flatMap Family.routes)
        ⟨st.mux, st.trace ++ [Event.allFontFaces s.family]⟩ = (.ok (), st1) →
      s.buildFontRoutes env T st
        = (.ok ((env.families s.pfx fonts).flatMap Family.css), st1)) ∧
    (∀ transport tr st1, T = transportOf env transport →
      st = ⟨s.ServeMux, tr ++ [Event.get (scriptURL s)]⟩ →
      s.Build env transport tr = (.ok (), st1) →
      (Join [s.pfx, hex7 ((env.families s.pfx fonts).flatMap Family.css)] ++ ".css",
        (⟨some "text/css", (env.families s.pfx fonts).flatMap Family.css⟩ : Handler))
          ∈ muxRoutes st1.mux) := by
  have hr : resolvedFamilies env T s st.trace = env.families s.pfx fonts := by
    simp [resolvedFamilies, hf]
  refine ⟨?_, ?_, ?_⟩
  · rcases hb : s.buildFontRoutes env T st with ⟨r, st2⟩
    cases r with
    | ok css =>
      obtain ⟨_, a1, _⟩ := buildFontRoutes_ok env s T _ _ _ hb
      exact Or.inr (by rw [a1, hr])
    | error e => exact absurd hb (buildFontRoutes_no_error env s T st fonts hf hfetch e st2)
    | panic p => exact Or.inl ⟨p, rfl⟩
  · intro st1 hloop
    obtain ⟨css, hb⟩ := buildFontRoutes_of_loop_ok env s T st fonts st1 hf hloop
    obtain ⟨_, a1, _⟩ := buildFontRoutes_ok env s T _ _ _ hb
    rw [hb, a1, hr]
  · intro transport tr st1 hT hst h
    obtain ⟨ct, b, regs, indexBuf, _, _, _, _, _, h5, _, _⟩ :=
      Build_ok env s transport tr st1 T _ _ hT rfl rfl h
    rw [hst] at hr
    simp only at hr
    rw [hr] at h5
    rw [h5]
    simp [derivedPath]

set_option maxRecDepth 100000 in
/-- Witness for C7 (amended): the two families of the default server on its
new mux. -/
theorem stylesheet_is_concatenation_witness :
    AllSucceeded demoEnv demoTransport ([] ++ [Event.allFontFaces (demoServer []).family])
      (((demoEnv.families (demoServer []).pfx
        [⟨"Montserrat", "https://fonts.example/montserrat.woff2"⟩,
         ⟨"Roboto", "https://fonts.example/roboto.woff2"⟩]).flatMap Family.routes).map
          fetchEvent) ∧
    fontRoutesLoop demoEnv demoTransport (demoServer [])
      ((demoEnv.families (demoServer []).pfx
        [⟨"Montserrat", "https://fonts.example/montserrat.woff2"⟩,
         ⟨"Roboto", "https://fonts.example/roboto.woff2"⟩]).flatMap Family.routes)
      ⟨(demoServer []).ServeMux, [] ++ [Event.allFontFaces (demoServer []).family]⟩
      = (.ok (),
          ⟨some ⟨[("/_/Montserrat.woff2", ⟨some "font/woff2", [1, 2]⟩),
                  ("/_/Roboto.woff2", ⟨some "font/woff2", [3]⟩)]⟩,
           [Event.allFontFaces "Montserrat:300,400,700|Roboto:300,400,700",
            Event.get "https://fonts.example/montserrat.woff2",
            Event.get "https://fonts.example/roboto.woff2"]⟩) ∧
    (demoEnv.families (demoServer []).pfx
        [⟨"Montserrat", "https://fonts.example/montserrat.woff2"⟩,
         ⟨"Roboto", "https://fonts.example/roboto.woff2"⟩]).flatMap Family.css
      = ascii "@font-face Montserrat;@font-face Roboto;" ∧
    (demoServer []).buildFontRoutes demoEnv demoTransport ⟨(demoServer []).ServeMux, []⟩
      = (.ok ((demoEnv.families (demoServer []).pfx
          [⟨"Montserrat", "https://fonts.example/montserrat.woff2"⟩,
           ⟨"Roboto", "https://fonts.example/roboto.woff2"⟩]).flatMap Family.css),
          ⟨some ⟨[("/_/Montserrat.woff2", ⟨some "font/woff2", [1, 2]⟩),
                  ("/_/Roboto.woff2", ⟨some "font/woff2", [3]⟩)]⟩,
           [Event.allFontFaces "Montserrat:300,400,700|Roboto:300,400,700",
            Event.get "https://fonts.example/montserrat.woff2",
            Event.get "https://fonts.example/roboto.woff2"]⟩) := by
  have hfetch : AllSucceeded demoEnv demoTransport
      ([] ++ [Event.allFontFaces (demoServer []).family])
      (((demoEnv.families (demoServer []).pfx
        [⟨"Montserrat", "https://fonts.example/montserrat.woff2"⟩,
         ⟨"Roboto", "https://fonts.example/roboto.woff2"⟩]).flatMap Family.routes).map
          fetchEvent) := ⟨by decide, by decide, trivial⟩
  exact ⟨hfetch, by decide, by decide,
    (stylesheet_is_concatenation demoEnv (demoServer []) demoTransport
      ⟨(demoServer []).ServeMux, []⟩ _ rfl hfetch).2.1 _ (by decide)⟩

/-- C8: after a build that returns nil the route table holds, after the
routes it held before: for each font file, in order, a route at
`path.Join(prefix, route.Path)` whose handler sets the content type and writes
the bytes that the fetch of the URL of the file returned in this build (the
call of `get` made after the script fetch, the font resolution and the fetches
of the font files before it); the script path with the fetched script bytes as
`text/javascript`; the stylesheet path with the aggregated stylesheet as
`text/css`; and the index path with the output of the template, without a
content type. -/
theorem Build_served_content (env : Env) (s : Server) (transport : Option RoundTripper)
    (tr : List Event) (st1 : State) (h : s.Build env transport tr = (.ok (), st1)) :
    ∃ ct script css regs indexBuf,
      (get env (transportOf env transport) (scriptURL s) tr).1 = .ok (ct, script) ∧
      (s.buildFontRoutes env (transportOf env transport)
        ⟨s.ServeMux, tr ++ [Event.get (scriptURL s)]⟩).1 = .ok css ∧
      regs.length = ((resolvedFamilies env (transportOf env transport) s
        (tr ++ [Event.get (scriptURL s)])).flatMap Family.routes).length ∧
      (∀ i route,
        ((resolvedFamilies env (transportOf env transport) s
          (tr ++ [Event.get (scriptURL s)])).flatMap Family.routes)[i]? = some route →
        ∃ contentType buf,
          (get env (transportOf env transport) route.URL
            (tr ++ [Event.get (scriptURL s), Event.allFontFaces s.family] ++
              (((resolvedFamilies env (transportOf env transport) s
                (tr ++ [Event.get (scriptURL s)])).flatMap Family.routes).take i).map
                  fetchEvent)).1 = .ok (contentType, buf) ∧
          regs[i]? = some (Join [s.pfx, route.Path], ⟨some contentType, buf⟩)) ∧
      env.ExecuteTemplate s.template
        (buildParams s (Join [s.pfx, hex7 script] ++ ".js") (Join [s.pfx, hex7 css] ++ ".css"))
          = .ok indexBuf ∧
      muxRoutes st1.mux = muxRoutes s.ServeMux ++ regs ++
        [(Join [s.pfx, hex7 script] ++ ".js", ⟨some "text/javascript", script⟩),
         (Join [s.pfx, hex7 css] ++ ".css", ⟨some "text/css", css⟩),
         (s.index, ⟨none, indexBuf⟩)] := by
  obtain ⟨ct, b, regs, indexBuf, h1, h2, h3, hl, h4, h5, _, _⟩ :=
    Build_ok env s transport tr st1 _ _ _ rfl rfl rfl h
  refine ⟨ct, b, _, regs, indexBuf, h1, h2, hl, ?_, h4, h5⟩
  intro i route hroute
  rw [h3] at hl ⊢
  exact fontRegs_getElem env _ s _ _ hl i route hroute

set_option maxRecDepth 100000 in
/-- Witness for C8: the routes of the default server after its build. -/
theorem Build_served_content_witness :
    ((demoServer []).Build demoEnv none []).1 = .ok () ∧
    muxRoutes ((demoServer []).Build demoEnv none []).2.mux =
      [("/_/Montserrat.woff2", ⟨some "font/woff2", [1, 2]⟩),
       ("/_/Roboto.woff2", ⟨some "font/woff2", [3]⟩),
       ("/_/bc283a6.js", ⟨some "text/javascript", ascii "SCRIPT"⟩),
       ("/_/24648db.css", ⟨some "text/css", ascii "@font-face Montserrat;@font-face Roboto;"⟩),
       ("/", ⟨none, ascii "<html>"⟩)] ∧
    ∃ ct script css regs indexBuf,
      (get demoEnv (transportOf demoEnv none) (scriptURL (demoServer [])) []).1
        = .ok (ct, script) ∧
      ((demoServer []).buildFontRoutes demoEnv (transportOf demoEnv none)
        ⟨(demoServer []).ServeMux, [] ++ [Event.get (scriptURL (demoServer []))]⟩).1 = .ok css ∧
      regs.length = ((resolvedFamilies demoEnv (transportOf demoEnv none) (demoServer [])
        ([] ++ [Event.get (scriptURL (demoServer []))])).flatMap Family.routes).length ∧
      (∀ i route,
        ((resolvedFamilies demoEnv (transportOf demoEnv none) (demoServer [])
          ([] ++ [Event.get (scriptURL (demoServer []))])).flatMap Family.routes)[i]?
            = some route →
        ∃ contentType buf,
          (get demoEnv (transportOf demoEnv none) route.URL
            ([] ++ [Event.get (scriptURL (demoServer [])),
                Event.allFontFaces (demoServer []).family] ++
              (((resolvedFamilies demoEnv (transportOf demoEnv none) (demoServer [])
                ([] ++ [Event.get (scriptURL (demoServer []))])).flatMap Family.routes).take
                  i).map fetchEvent)).1 = .ok (contentType, buf) ∧
          regs[i]? = some (Join [(demoServer []).pfx, route.Path], ⟨some contentType, buf⟩)) ∧
      demoEnv.ExecuteTemplate (demoServer []).template
        (buildParams (demoServer []) (Join [(demoServer []).pfx, hex7 script] ++ ".js")
          (Join [(demoServer []).pfx, hex7 css] ++ ".css")) = .ok indexBuf ∧
      muxRoutes ((demoServer []).Build demoEnv none []).2.mux =
        muxRoutes (demoServer []).ServeMux ++ regs ++
        [(Join [(demoServer []).pfx, hex7 script] ++ ".js", ⟨some "text/javascript", script⟩),
         (Join [(demoServer []).pfx, hex7 css] ++ ".css", ⟨some "text/css", css⟩),
         ((demoServer []).index, ⟨none, indexBuf⟩)] :=
  ⟨by decide, by decide,
    Build_served_content demoEnv (demoServer []) none [] _ (Prod.ext (by decide) rfl)⟩

end Redoc

namespace Redoc

set_option maxRecDepth 100000 in
/-- C1, refuted as stated: with a font family whose second font file cannot
be fetched `Build` returns the fetch error and the route of the first font
file stays registered on the mux, which was empty before; with a template that
does not parse `Build` returns an error and the two font routes, the script
route and the stylesheet route stay registered. -/
theorem Build_failure_keeps_routes :
    muxRoutes brokenServer.ServeMux = [] ∧
    (brokenServer.Build demoEnv none []).1
      = .error (.url "Get" "https://fonts.example/ghost.woff2" (.msg "connection refused")) ∧
    muxRoutes (brokenServer.Build demoEnv none []).2.mux
      = [("/_/Montserrat.woff2", ⟨some "font/woff2", [1, 2]⟩)] ∧
    muxRoutes (demoServer [WithTemplate (ascii "\x7b\x7bend\x7d\x7d")]).ServeMux = [] ∧
    ((demoServer [WithTemplate (ascii "\x7b\x7bend\x7d\x7d")]).Build demoEnv none []).1.isError = true ∧
    muxRoutes ((demoServer [WithTemplate (ascii "\x7b\x7bend\x7d\x7d")]).Build demoEnv none []).2.mux
      = [("/_/Montserrat.woff2", ⟨some "font/woff2", [1, 2]⟩),
         ("/_/Roboto.woff2", ⟨some "font/woff2", [3]⟩),
         ("/_/bc283a6.js", ⟨some "text/javascript", ascii "SCRIPT"⟩),
         ("/_/24648db.css",
           ⟨some "text/css", ascii "@font-face Montserrat;@font-face Roboto;"⟩)] := by
  decide

/-- C1, amended: when `Build` returns a non-nil error, the routes the mux held
before the call are kept and the routes registered before the failing step stay
registered; the index route is not registered.  If the last call made was the
script fetch or the font resolution, the mux is untouched.  If it was the fetch
of the font file number `k + 1`, the routes of the first `k` font files have been
added, in order, each with the content this build fetched for it, and nothing
else.  If it was the template parse or the template execution, the routes of
all font files, the script route and the stylesheet route have been added. -/
theorem Build_error_routes (env : Env) (s : Server) (transport : Option RoundTripper)
    (tr : List Event) (e : Error) (st1 : State)
    (h : s.Build env transport tr = (.error e, st1)) :
    (st1.mux = s.ServeMux ∧
      (st1.trace = tr ++ [Event.get (scriptURL s)] ∨
       st1.trace = tr ++ [Event.get (scriptURL s), Event.allFontFaces s.family])) ∨
    (∃ k regs,
      k < ((resolvedFamilies env (transportOf env transport) s
        (tr ++ [Event.get (scriptURL s)])).flatMap Family.routes).length ∧
      regs = fontRegs env (transportOf env transport) s
        (tr ++ [Event.get (scriptURL s), Event.allFontFaces s.family])
        (((resolvedFamilies env (transportOf env transport) s
        (tr ++ [Event.get (scriptURL s)])).flatMap Family.routes).take k) ∧
      regs.length = k ∧
      st1.trace = tr ++ Event.get (scriptURL s) :: Event.allFontFaces s.family ::
        (((resolvedFamilies env (transportOf env transport) s
        (tr ++ [Event.get (scriptURL s)])).flatMap Family.routes).take (k + 1)).map fetchEvent ∧
      muxRoutes st1.mux = muxRoutes s.ServeMux ++ regs) ∨
    (∃ ct script css regs p,
      (get env (transportOf env transport) (scriptURL s) tr).1 = .ok (ct, script) ∧
      (s.buildFontRoutes env (transportOf env transport)
        ⟨s.ServeMux, tr ++ [Event.get (scriptURL s)]⟩).1 = .ok css ∧
      regs = fontRegs env (transportOf env transport) s
        (tr ++ [Event.get (scriptURL s), Event.allFontFaces s.family])
        ((resolvedFamilies env (transportOf env transport) s
        (tr ++ [Event.get (scriptURL s)])).flatMap Family.routes) ∧
      regs.length = ((resolvedFamilies env (transportOf env transport) s
        (tr ++ [Event.get (scriptURL s)])).flatMap Family.routes).length ∧
      (st1.trace = tr ++ Event.get (scriptURL s) :: Event.allFontFaces s.family ::
          (((resolvedFamilies env (transportOf env transport) s
        (tr ++ [Event.get (scriptURL s)])).flatMap Family.routes).map fetchEvent ++ [Event.parse s.template]) ∨
       st1.trace = tr ++ Event.get (scriptURL s) :: Event.allFontFaces s.family ::
          (((resolvedFamilies env (transportOf env transport) s
        (tr ++ [Event.get (scriptURL s)])).flatMap Family.routes).map fetchEvent
            ++ [Event.parse s.template, Event.execute s.template p])) ∧
      muxRoutes st1.mux = muxRoutes s.ServeMux ++ regs ++
        [(Join [s.pfx, hex7 script] ++ ".js", ⟨some "text/javascript", script⟩),
         (Join [s.pfx, hex7 css] ++ ".css", ⟨some "text/css", css⟩)]) :=
  Build_error_cases env s transport tr e st1 _ _ rfl rfl h

set_option maxRecDepth 100000 in
/-- Witness for C1 (amended): the second font file of the family `Broken`
cannot be fetched; `Build` returns the error of that fetch and the route of the
first font file stays on the mux. -/
theorem Build_error_routes_witness :
    (brokenServer.Build demoEnv none []).1
      = .error (.url "Get" "https://fonts.example/ghost.woff2" (.msg "connection refused")) ∧
    muxRoutes (brokenServer.Build demoEnv none []).2.mux
      = [("/_/Montserrat.woff2", ⟨some "font/woff2", [1, 2]⟩)] ∧
    (((brokenServer.Build demoEnv none []).2.mux = brokenServer.ServeMux ∧
      ((brokenServer.Build demoEnv none []).2.trace = [] ++ [Event.get (scriptURL brokenServer)] ∨
       (brokenServer.Build demoEnv none []).2.trace = [] ++ [Event.get (scriptURL brokenServer), Event.allFontFaces brokenServer.family])) ∨
    (∃ k regs,
      k < ((resolvedFamilies demoEnv (transportOf demoEnv none) brokenServer
        ([] ++ [Event.get (scriptURL brokenServer)])).flatMap Family.routes).length ∧
      regs = fontRegs demoEnv (transportOf demoEnv none) brokenServer
        ([] ++ [Event.get (scriptURL brokenServer), Event.allFontFaces brokenServer.family])
        (((resolvedFamilies demoEnv (transportOf demoEnv none) brokenServer
        ([] ++ [Event.get (scriptURL brokenServer)])).flatMap Family.routes).take k) ∧
      regs.length = k ∧
      (brokenServer.Build demoEnv none []).2.trace = [] ++ Event.get (scriptURL brokenServer) :: Event.allFontFaces brokenServer.family ::
        (((resolvedFamilies demoEnv (transportOf demoEnv none) brokenServer
        ([] ++ [Event.get (scriptURL brokenServer)])).flatMap Family.routes).take (k + 1)).map fetchEvent ∧
      muxRoutes (brokenServer.Build demoEnv none []).2.mux = muxRoutes brokenServer.ServeMux ++ regs) ∨
    (∃ ct script css regs p,
      (get demoEnv (transportOf demoEnv none) (scriptURL brokenServer) []).1 = .ok (ct, script) ∧
      (brokenServer.buildFontRoutes demoEnv (transportOf demoEnv none)
        ⟨brokenServer.ServeMux, [] ++ [Event.get (scriptURL brokenServer)]⟩).1 = .ok css ∧
      regs = fontRegs demoEnv (transportOf demoEnv none) brokenServer
        ([] ++ [Event.get (scriptURL brokenServer), Event.allFontFaces brokenServer.family])
        ((resolvedFamilies demoEnv (transportOf demoEnv none) brokenServer
        ([] ++ [Event.get (scriptURL brokenServer)])).flatMap Family.routes) ∧
      regs.length = ((resolvedFamilies demoEnv (transportOf demoEnv none) brokenServer
        ([] ++ [Event.get (scriptURL brokenServer)])).flatMap Family.routes).length ∧
      ((brokenServer.Build demoEnv none []).2.trace = [] ++ Event.get (scriptURL brokenServer) :: Event.allFontFaces brokenServer.family ::
          (((resolvedFamilies demoEnv (transportOf demoEnv none) brokenServer
        ([] ++ [Event.get (scriptURL brokenServer)])).flatMap Family.routes).map fetchEvent ++ [Event.parse brokenServer.template]) ∨
       (brokenServer.Build demoEnv none []).2.trace = [] ++ Event.get (scriptURL brokenServer) :: Event.allFontFaces brokenServer.family ::
          (((resolvedFamilies demoEnv (transportOf demoEnv none) brokenServer
        ([] ++ [Event.get (scriptURL brokenServer)])).flatMap Family.routes).map fetchEvent
            ++ [Event.parse brokenServer.template, Event.execute brokenServer.template p])) ∧
      muxRoutes (brokenServer.Build demoEnv none []).2.mux = muxRoutes brokenServer.ServeMux ++ regs ++
        [(Join [brokenServer.pfx, hex7 script] ++ ".js", ⟨some "text/javascript", script⟩),
         (Join [brokenServer.pfx, hex7 css] ++ ".css", ⟨some "text/css", css⟩)])) :=
  ⟨by decide, by decide,
    Build_error_routes demoEnv brokenServer none []
      (.url "Get" "https://fonts.example/ghost.woff2" (.msg "connection refused")) _
      (Prod.ext (by decide) rfl)⟩

/-- C2: `Build` performs its steps in the order script fetch, font resolution,
font-file fetches, template parse, template execution, and the first step that
fails with an error `e` makes `Build` return exactly `e` with nothing done after
it: for the script fetch (the only call made, the mux untouched); for the font
resolution (after these two calls, the mux untouched); for the fetch of a font
file, when the fetches and registrations of the files before it went through
(no further fetch, no script or stylesheet route); for the template parse and
for the template execution, when fonts, script and stylesheet have been
registered (the index route is not registered).  Conversely, whenever `Build`
returns an error `e`, the calls it made are an initial part of that plan, all
of them but the last succeeded, the last one failed with exactly `e`, and no
route without a content type (the index route) has been registered. -/
theorem Build_fail_fast (env : Env) (s : Server) (transport : Option RoundTripper)
    (tr : List Event) :
    (∀ e, (get env (transportOf env transport) (scriptURL s) tr).1 = .error e →
      s.Build env transport tr = (.error e, ⟨s.ServeMux, tr ++ [Event.get (scriptURL s)]⟩)) ∧
    (∀ x e, (get env (transportOf env transport) (scriptURL s) tr).1 = .ok x →
      env.AllFontFaces (transportOf env transport) (tr ++ [Event.get (scriptURL s)]) s.family
        = .error e →
      s.Build env transport tr = (.error e,
        ⟨s.ServeMux, tr ++ [Event.get (scriptURL s)] ++ [Event.allFontFaces s.family]⟩)) ∧
    (∀ x fonts pre r post stk e,
      (get env (transportOf env transport) (scriptURL s) tr).1 = .ok x →
      env.AllFontFaces (transportOf env transport) (tr ++ [Event.get (scriptURL s)]) s.family
        = .ok fonts →
      (env.families s.pfx fonts).flatMap Family.routes = pre ++ r :: post →
      fontRoutesLoop env (transportOf env transport) s pre
        ⟨s.ServeMux, tr ++ [Event.get (scriptURL s), Event.allFontFaces s.family]⟩
          = (.ok (), stk) →
      (get env (transportOf env transport) r.URL stk.trace).1 = .error e →
      s.Build env transport tr = (.error e, ⟨stk.mux, stk.trace ++ [Event.get r.URL]⟩)) ∧
    (∀ ct script css st2 mux3 mux4 e,
      (get env (transportOf env transport) (scriptURL s) tr).1 = .ok (ct, script) →
      s.buildFontRoutes env (transportOf env transport)
        ⟨s.ServeMux, tr ++ [Event.get (scriptURL s)]⟩ = (.ok css, st2) →
      HandleFunc st2.mux (Join [s.pfx, hex7 script] ++ ".js")
        ⟨some "text/javascript", script⟩ = .ok mux3 →
      HandleFunc (some mux3) (Join [s.pfx, hex7 css] ++ ".css") ⟨some "text/css", css⟩
        = .ok mux4 →
      env.Parse s.template = some e →
      s.Build env transport tr
        = (.error e, ⟨some mux4, st2.trace ++ [Event.parse s.template]⟩)) ∧
    (∀ ct script css st2 mux3 mux4 e,
      (get env (transportOf env transport) (scriptURL s) tr).1 = .ok (ct, script) →
      s.buildFontRoutes env (transportOf env transport)
        ⟨s.ServeMux, tr ++ [Event.get (scriptURL s)]⟩ = (.ok css, st2) →
      HandleFunc st2.mux (Join [s.pfx, hex7 script] ++ ".js")
        ⟨some "text/javascript", script⟩ = .ok mux3 →
      HandleFunc (some mux3) (Join [s.pfx, hex7 css] ++ ".css") ⟨some "text/css", css⟩
        = .ok mux4 →
      env.Parse s.template = none →
      env.ExecuteTemplate s.template
        (buildParams s (Join [s.pfx, hex7 script] ++ ".js") (Join [s.pfx, hex7 css] ++ ".css"))
          = .error e →
      s.Build env transport tr = (.error e, ⟨some mux4,
        st2.trace ++ [Event.parse s.template] ++ [Event.execute s.template
          (buildParams s (Join [s.pfx, hex7 script] ++ ".js")
            (Join [s.pfx, hex7 css] ++ ".css"))]⟩)) ∧
    (∀ e st1, s.Build env transport tr = (.error e, st1) →
      ∃ done last p,
        st1.trace = tr ++ done ++ [last] ∧
        (done ++ [last]) <+: buildPlan s
          (resolvedFamilies env (transportOf env transport) s (tr ++ [Event.get (scriptURL s)]))
          p ∧
        AllSucceeded env (transportOf env transport) tr done ∧
        stepError env (transportOf env transport) (tr ++ done) last = some e ∧
        ∃ regs, muxRoutes st1.mux = muxRoutes s.ServeMux ++ regs ∧
          ∀ reg ∈ regs, reg.2.contentType ≠ none) := by
  refine ⟨fun e he => Build_script_error env s transport tr e he,
    fun x e hg hf => Build_fonts_error_result env s transport tr x e hg hf,
    fun x fonts pre r post stk e hg hf hr hpre hget =>
      Build_font_fetch_error env s transport tr x fonts pre post r stk e hg hf hr hpre hget,
    fun ct script css st2 mux3 mux4 e hg hb h3 h4 hp =>
      Build_parse_error env s transport tr ct script css st2 mux3 mux4 e hg hb h3 h4 hp,
    fun ct script css st2 mux3 mux4 e hg hb h3 h4 hp hx =>
      Build_execute_error env s transport tr ct script css st2 mux3 mux4 e hg hb h3 h4 hp hx,
    ?_⟩
  intro e st1 h
  obtain ⟨added, p, regs, h1, ⟨done, last, hadd, hpre, hall, hlast⟩, h3, h4⟩ :=
    Build_error env s transport tr e st1 _ _ rfl rfl h
  refine ⟨done, last, p, ?_, ?_, hall, hlast, regs, h3, h4⟩
  · rw [h1, hadd, List.append_assoc]
  · rw [← hadd]; exact hpre

set_option maxRecDepth 100000 in
/-- Witness for C2: the second font file of the family `Broken` cannot be
fetched.  The script fetch, the font resolution and the fetch and registration
of the first font file go through, the fetch of the second file fails, and
`Build` returns the error of that fetch with nothing done after it. -/
theorem Build_fail_fast_witness :
    fontRoutesLoop demoEnv (transportOf demoEnv none) brokenServer
      [⟨"Montserrat.woff2", "https://fonts.example/montserrat.woff2"⟩]
      ⟨brokenServer.ServeMux,
        [] ++ [Event.get (scriptURL brokenServer), Event.allFontFaces brokenServer.family]⟩
      = (.ok (), ⟨some ⟨[("/_/Montserrat.woff2", ⟨some "font/woff2", [1, 2]⟩)]⟩,
          [Event.get "https://cdn.jsdelivr.net/npm/redoc@next/bundles/redoc.standalone.js",
           Event.allFontFaces "Broken",
           Event.get "https://fonts.example/montserrat.woff2"]⟩) ∧
    (get demoEnv (transportOf demoEnv none) "https://fonts.example/ghost.woff2"
      [Event.get "https://cdn.jsdelivr.net/npm/redoc@next/bundles/redoc.standalone.js",
       Event.allFontFaces "Broken",
       Event.get "https://fonts.example/montserrat.woff2"]).1
      = .error (.url "Get" "https://fonts.example/ghost.woff2" (.msg "connection refused")) ∧
    brokenServer.Build demoEnv none [] =
      (.error (.url "Get" "https://fonts.example/ghost.woff2" (.msg "connection refused")),
        ⟨some ⟨[("/_/Montserrat.woff2", ⟨some "font/woff2", [1, 2]⟩)]⟩,
          [Event.get "https://cdn.jsdelivr.net/npm/redoc@next/bundles/redoc.standalone.js",
           Event.allFontFaces "Broken",
           Event.get "https://fonts.example/montserrat.woff2"]
            ++ [Event.get "https://fonts.example/ghost.woff2"]⟩) :=
  ⟨by decide, by rfl,
    (Build_fail_fast demoEnv brokenServer none []).2.2.1
      ("application/javascript", ascii "SCRIPT")
      [⟨"Montserrat", "https://fonts.example/montserrat.woff2"⟩,
       ⟨"Ghost", "https://fonts.example/ghost.woff2"⟩]
      [⟨"Montserrat.woff2", "https://fonts.example/montserrat.woff2"⟩]
      ⟨"Ghost.woff2", "https://fonts.example/ghost.woff2"⟩ []
      ⟨some ⟨[("/_/Montserrat.woff2", ⟨some "font/woff2", [1, 2]⟩)]⟩,
        [Event.get "https://cdn.jsdelivr.net/npm/redoc@next/bundles/redoc.standalone.js",
         Event.allFontFaces "Broken",
         Event.get "https://fonts.example/montserrat.woff2"]⟩
      (.url "Get" "https://fonts.example/ghost.woff2" (.msg "connection refused"))
      (by rfl) (by rfl) (by decide) (by decide) (by rfl)⟩

end Redoc

namespace Redoc

set_option maxRecDepth 100000 in
/-- C5, refuted as stated: with the prefix `/_`, which does not end in a
slash, the build succeeds and registers the script at `/_/bc283a6.js` and the
stylesheet at `/_/24648db.css`, whereas the concatenations of prefix, digest
prefix and extension are `/_bc283a6.js` and `/_24648db.css`. -/
theorem derived_path_not_concatenation :
    (demoServer [WithPrefix "/_"]).pfx = "/_" ∧
    ((demoServer [WithPrefix "/_"]).Build demoEnv none []).1 = .ok () ∧
    (muxRoutes ((demoServer [WithPrefix "/_"]).Build demoEnv none []).2.mux).map Prod.fst
      = ["/_/Montserrat.woff2", "/_/Roboto.woff2", "/_/bc283a6.js", "/_/24648db.css", "/"] ∧
    "/_" ++ hex7 (ascii "SCRIPT") ++ ".js" = "/_bc283a6.js" ∧
    "/_" ++ hex7 (ascii "@font-face Montserrat;@font-face Roboto;") ++ ".css"
      = "/_24648db.css" := by
  decide

/-- C5, amended: for a prefix that is a clean directory path with a trailing
slash (an optional leading slash, then path elements each followed by one
slash, no element being empty, `.` or `..`: for instance the empty prefix, `/`
and the default `/_/`) the derived path of every payload is the concatenation
of the prefix, the first seven hex characters of the MD5 digest and the
extension, and a build that returns nil has registered script and stylesheet
at these concatenations. -/
theorem derived_path_concatenation (rooted : Bool) (segs : List (List Char))
    (hsegs : ∀ seg ∈ segs, RealElem seg) :
    (∀ (b : Bytes) (ext : String),
      Join [dirPath rooted segs, hex7 b] ++ ext = dirPath rooted segs ++ hex7 b ++ ext) ∧
    (∀ (env : Env) (s : Server) (transport : Option RoundTripper) (tr : List Event)
      (st1 : State),
      s.pfx = dirPath rooted segs →
      s.Build env transport tr = (.ok (), st1) →
      ∃ ct script css regs indexBuf,
        (get env (transportOf env transport) (scriptURL s) tr).1 = .ok (ct, script) ∧
        (s.buildFontRoutes env (transportOf env transport)
          ⟨s.ServeMux, tr ++ [Event.get (scriptURL s)]⟩).1 = .ok css ∧
        muxRoutes st1.mux = muxRoutes s.ServeMux ++ regs ++
          [(s.pfx ++ hex7 script ++ ".js", ⟨some "text/javascript", script⟩),
           (s.pfx ++ hex7 css ++ ".css", ⟨some "text/css", css⟩),
           (s.index, ⟨none, indexBuf⟩)]) := by
  have key : ∀ (b : Bytes) (ext : String),
      Join [dirPath rooted segs, hex7 b] ++ ext = dirPath rooted segs ++ hex7 b ++ ext := by
    intro b ext
    rw [Join_dirPath rooted segs (hex7 b) hsegs (hex7_real b)]
  refine ⟨key, ?_⟩
  intro env s transport tr st1 hpfx h
  obtain ⟨ct, b, regs, indexBuf, h1, h2, _, _, _, h5, _, _⟩ :=
    Build_ok env s transport tr st1 _ _ _ rfl rfl rfl h
  refine ⟨ct, b, _, regs, indexBuf, h1, h2, ?_⟩
  rw [h5]
  simp only [derivedPath, hpfx, key]

set_option maxRecDepth 100000 in
/-- Witness for C5 (amended): the default prefix `/_/`. -/
theorem derived_path_concatenation_witness :
    (∀ seg ∈ [['_']], RealElem seg) ∧
    dirPath true [['_']] = "/_/" ∧
    Join ["/_/", hex7 (ascii "SCRIPT")] ++ ".js" = "/_/bc283a6.js" ∧
    (∀ (b : Bytes) (ext : String),
      Join [dirPath true [['_']], hex7 b] ++ ext = dirPath true [['_']] ++ hex7 b ++ ext) := by
  have hsegs : ∀ seg ∈ [['_']], RealElem seg := by
    intro seg hseg
    rw [List.mem_singleton] at hseg
    subst hseg
    exact ⟨by decide, by decide, by decide, by decide⟩
  exact ⟨hsegs, by decide, by decide, (derived_path_concatenation true [['_']] hsegs).1⟩

end Redoc
